import Mathlib

set_option autoImplicit false

namespace CHD

/-!
Verification of the stream-job orchestration engine of the
Construction-Hazard-Detection repository (`main.py` and the
`StreamCapture` component), via a shallow embedding in Lean 4.

Python dictionaries are modelled as insertion-ordered association lists
(`List (String × α)`), Python `int()` truncation as `pyInt`, and Python's
`str`/`repr` rendering of the relevant-config dictionary as an explicit
character-level rendering function whose injectivity is proved by a
round-tripping parser.
-/

/-- Python `int()` applied to a nonnegative-or-negative rational:
truncation toward zero (`Int.tdiv` is T-division). -/
def pyInt (q : ℚ) : ℤ := Int.tdiv q.num q.den

/-- Python dict lookup `d.get(k)`: first binding wins (keys are unique in
an actual dict, so this matches dict semantics). -/
def pyGet {α : Type} (d : List (String × α)) (k : String) : Option α :=
  match d with
  | [] => none
  | (k', v) :: rest => if k' = k then some v else pyGet rest k

/-- Python dict membership `k in d`. -/
def pyMem {α : Type} (d : List (String × α)) (k : String) : Bool :=
  (pyGet d k).isSome

/-- Python dict assignment `d[k] = v`: update the binding in place if the
key exists (keeping its position), otherwise append at the end.  Dict
keys are unique, so updating the first occurrence is dict semantics. -/
def pySet {α : Type} : List (String × α) → String → α → List (String × α)
  | [], k, v => [(k, v)]
  | (k', v') :: rest, k, v =>
      if k' = k then (k, v) :: rest else (k', v') :: pySet rest k v

/-- Python `del d[k]` (the key is assumed present by callers that cannot
raise; `pyDelE` models the raising form). -/
def pyDel {α : Type} : List (String × α) → String → List (String × α)
  | [], _ => []
  | (k', v') :: rest, k =>
      if k' = k then pyDel rest k else (k', v') :: pyDel rest k

/-- Python `del d[k]`, raising `KeyError` when the key is absent. -/
def pyDelE {α : Type} (d : List (String × α)) (k : String) :
    Except String (List (String × α)) :=
  if pyMem d k then .ok (pyDel d k) else .error ("KeyError: " ++ k)

/-- Keys of a dict in iteration order (`list(d.keys())`). -/
def pyKeys {α : Type} (d : List (String × α)) : List String :=
  d.map Prod.fst

/-- Python `str(x)` for an optional string appearing inside an f-string:
`None` renders as the four characters `None`. -/
def pyFStrOpt (o : Option String) : String :=
  match o with
  | none => "None"
  | some s => s

/-- Python substring test `needle in haystack` on character lists. -/
def listIsSubstr (needle : List Char) : List Char → Bool
  | [] => needle.isEmpty
  | c :: rest =>
      if needle.isPrefixOf (c :: rest) then true else listIsSubstr needle rest

/-- Python substring test `needle in haystack`. -/
def strContains (haystack needle : String) : Bool :=
  listIsSubstr needle.data haystack.data

/-! ## Python `repr` of strings and of the relevant-config dictionary -/

/-- Escape one character the way Python `repr` escapes it inside a
single-quoted string literal: backslash and single quote are
backslash-escaped, everything else is kept. -/
def escChar (c : Char) : List Char :=
  if c = '\\' then ['\\', '\\']
  else if c = '\'' then ['\\', '\'']
  else [c]

/-- Escape a whole character list. -/
def escList : List Char → List Char
  | [] => []
  | c :: rest => escChar c ++ escList rest

/-- Python `repr` of a string: single-quoted with escaping. -/
def pyReprStr (s : String) : List Char :=
  '\'' :: escList s.data ++ ['\'']

/-- Python `repr` of `str | None`. -/
def pyReprOptStr (o : Option String) : List Char :=
  match o with
  | none => "None".data
  | some s => pyReprStr s

/-- Python `repr` of a bool. -/
def pyReprBool (b : Bool) : List Char :=
  if b then "True".data else "False".data

/-- Python `repr` of the entries of a `dict[str, str]`, without the
outer braces. -/
def pyReprEntries : List (String × String) → List Char
  | [] => []
  | [(k, v)] => pyReprStr k ++ ": ".data ++ pyReprStr v
  | (k, v) :: rest =>
      pyReprStr k ++ ": ".data ++ pyReprStr v ++ ", ".data ++ pyReprEntries rest

/-- Python `repr` of a `dict[str, str] | None`. -/
def pyReprNotifs (o : Option (List (String × String))) : List Char :=
  match o with
  | none => "None".data
  | some entries => '{' :: pyReprEntries entries ++ ['}']

/-! ## Configuration records -/

/-- One record of the YAML configuration file.  Fields accessed in the
source with `config['k']` (raising `KeyError` when missing) are wrapped in
an outer `Option` whose `none` means "key absent"; `site` and
`notifications` may additionally be present-but-null, hence the inner
`Option`.  `stream_name` and `expire_date` are only ever read with
`.get`, so absent and null collapse. -/
structure RawConfig where
  video_url : Option String
  model_key : Option String
  site : Option (Option String)
  stream_name : Option String
  notifications : Option (Option (List (String × String)))
  detect_with_server : Option Bool
  expire_date : Option String
  line_token : Option String
  language : Option String
deriving Repr, DecidableEq

/-- Python truthiness of a configuration record viewed as a dict:
an empty dict is falsy. -/
def RawConfig.isTruthy (c : RawConfig) : Bool :=
  c.video_url.isSome || c.model_key.isSome || c.site.isSome ||
  c.stream_name.isSome || c.notifications.isSome ||
  c.detect_with_server.isSome || c.expire_date.isSome ||
  c.line_token.isSome || c.language.isSome

/-- Model of `config[k]` access: `KeyError` when the key is absent. -/
def getItem {α : Type} (o : Option α) (k : String) : Except String α :=
  match o with
  | some v => .ok v
  | none => .error ("KeyError: " ++ k)

/-- The Python `str()` rendering of the `relevant_config` dictionary
built in `MainApp.compute_config_hash`, as a character list. -/
def renderRelevant (url mk : String) (site : Option String) (sn : String)
    (nf : Option (List (String × String))) (dws : Bool) : List Char :=
  "\x7b'video_url': ".data ++ pyReprStr url ++
  ", 'model_key': ".data ++ pyReprStr mk ++
  ", 'site': ".data ++ pyReprOptStr site ++
  ", 'stream_name': ".data ++ pyReprStr sn ++
  ", 'notifications': ".data ++ pyReprNotifs nf ++
  ", 'detect_with_server': ".data ++ pyReprBool dws ++ ['}']

/-- Embedding of `MainApp.compute_config_hash` (`main.py` lines 73–91): build the
`relevant_config` dictionary from the six relevant fields and convert it
to its Python string form.  Raises `KeyError` when one of the directly
indexed fields is missing. -/
def compute_config_hash (config : RawConfig) : Except String String :=
  match config.video_url with
  | none => .error "KeyError: video_url"
  | some url =>
    match config.model_key with
    | none => .error "KeyError: model_key"
    | some mk =>
      match config.site with
      | none => .error "KeyError: site"
      | some site =>
        match config.notifications with
        | none => .error "KeyError: notifications"
        | some notifs =>
          match config.detect_with_server with
          | none => .error "KeyError: detect_with_server"
          | some dws =>
              .ok (String.mk (renderRelevant url mk site
                (config.stream_name.getD "prediction_visual") notifs dws))

/-! ## A round-tripping parser for the rendered relevant-config string

The parser below recovers the six relevant fields from the rendered
string, which proves that the rendering — hence the fingerprint — is
injective in those six fields. -/

/-- Parse the tail of a single-quoted Python string literal (after the
opening quote), undoing the escaping of `escList`.  The boolean state
records whether the previous character was an unconsumed backslash. -/
def parseStrTailEsc : Bool → List Char → Option (List Char × List Char)
  | _, [] => none
  | true, c :: rest =>
      match parseStrTailEsc false rest with
      | none => none
      | some (s, r) => some (c :: s, r)
  | false, c :: rest =>
      if c = '\'' then some ([], rest)
      else if c = '\\' then parseStrTailEsc true rest
      else
        match parseStrTailEsc false rest with
        | none => none
        | some (s, r) => some (c :: s, r)

/-- Parse the tail of a single-quoted Python string literal. -/
def parseStrTail : List Char → Option (List Char × List Char) :=
  parseStrTailEsc false

/-- Consume an exact literal prefix. -/
def parseLit : List Char → List Char → Option (List Char)
  | [], input => some input
  | _ :: _, [] => none
  | p :: ps, c :: cs => if c = p then parseLit ps cs else none

/-- Parse a full single-quoted Python string literal. -/
def parseStrLit (input : List Char) : Option (String × List Char) :=
  match input with
  | [] => none
  | c :: rest =>
      if c = '\'' then (parseStrTail rest).map (fun p => (String.mk p.1, p.2))
      else none

/-- Parse the rendering of `str | None`. -/
def parseOptStr (input : List Char) : Option (Option String × List Char) :=
  match input with
  | [] => none
  | c :: rest =>
      if c = 'N' then
        (parseLit "one".data rest).map (fun r => ((none : Option String), r))
      else (parseStrLit (c :: rest)).map (fun p => (some p.1, p.2))

/-- Parse the rendering of a bool. -/
def parseBool (input : List Char) : Option (Bool × List Char) :=
  match input with
  | [] => none
  | c :: rest =>
      if c = 'T' then (parseLit "rue".data rest).map (fun r => (true, r))
      else if c = 'F' then (parseLit "alse".data rest).map (fun r => (false, r))
      else none

/-- Parse the entry list of a rendered `dict[str, str]`, consuming the
closing brace; fuel-indexed for termination. -/
def parseEntryList : ℕ → List Char → Option (List (String × String) × List Char)
  | 0, _ => none
  | _ + 1, [] => none
  | fuel + 1, c :: input =>
      if c = '}' then some ([], input)
      else
        match parseStrLit (c :: input) with
        | none => none
        | some (k, r1) =>
          match parseLit ": ".data r1 with
          | none => none
          | some r2 =>
            match parseStrLit r2 with
            | none => none
            | some (v, r3) =>
              match r3 with
              | '}' :: rest => some ([(k, v)], rest)
              | ',' :: ' ' :: rest =>
                  match parseEntryList fuel rest with
                  | none => none
                  | some (es, r) => some ((k, v) :: es, r)
              | _ => none

/-- Parse the rendering of `dict[str, str] | None`. -/
def parseNotifs (input : List Char) :
    Option (Option (List (String × String)) × List Char) :=
  match input with
  | [] => none
  | c :: rest =>
      if c = 'N' then
        (parseLit "one".data rest).map
          (fun r => ((none : Option (List (String × String))), r))
      else if c = '{' then
        (parseEntryList (rest.length + 1) rest).map (fun p => (some p.1, p.2))
      else none

/-- Parse the whole rendered relevant-config string back into its six
fields. -/
def parseRelevant (input : List Char) :
    Option (String × String × Option String × String ×
      Option (List (String × String)) × Bool) :=
  (parseLit "\x7b'video_url': ".data input).bind (fun r0 =>
  (parseStrLit r0).bind (fun p1 =>
  (parseLit ", 'model_key': ".data p1.2).bind (fun r2 =>
  (parseStrLit r2).bind (fun p2 =>
  (parseLit ", 'site': ".data p2.2).bind (fun r4 =>
  (parseOptStr r4).bind (fun p3 =>
  (parseLit ", 'stream_name': ".data p3.2).bind (fun r6 =>
  (parseStrLit r6).bind (fun p4 =>
  (parseLit ", 'notifications': ".data p4.2).bind (fun r8 =>
  (parseNotifs r8).bind (fun p5 =>
  (parseLit ", 'detect_with_server': ".data p5.2).bind (fun r10 =>
  (parseBool r10).bind (fun p6 =>
  some (p1.1, p2.1, p3.1, p4.1, p5.1, p6.1)))))))))))))

/-- A concrete well-formed configuration record. -/
def cfgA : RawConfig :=
  { video_url := some "rtsp://camera-a", model_key := some "yolo11n",
    site := some (some "SiteA"), stream_name := none,
    notifications := some (some [("tokA", "en")]),
    detect_with_server := some false,
    expire_date := some "2099-12-31", line_token := none, language := none }

/-- Variant of `cfgA` with a different expiry date and an explicit stream label equal
to the default. -/
def cfgB : RawConfig :=
  { cfgA with expire_date := none,
              stream_name := some "prediction_visual" }

/-- The rendered fingerprint of `cfgA` (and of `cfgB`). -/
def hashAB : String :=
  String.mk (renderRelevant "rtsp://camera-a" "yolo11n" (some "SiteA")
    "prediction_visual" [("tokA", "en")] false)

/-! ## The reconciliation pass (`MainApp.reload_configurations`)

The pass mutates `self.running_processes` and
`self.current_config_hashes` in place and performs external effects
(`stop_process`, `start_process`, `redis_manager.delete`).  We model the
mutable state plus the effect log as `PassState`, and an uncaught Python
exception as an `Option String` paired with the state reached when it was
raised (in-place mutations made before the raise survive it).
`Utils.is_expired` lives outside the sources under verification, so the
pass is parametrised by an arbitrary expiry predicate `isExp`. -/

/-- Actual state owned by the Reconciler: the running workers and the
recorded fingerprints (glossary of the spec). -/
structure ActualState where
  running : List (String × RawConfig)
  hashes : List (String × String)
deriving Repr, DecidableEq

/-- Mutable state plus effect log of one reconciliation pass.  `stopped`
and `started` record the URLs passed to `stop_process` / `start_process`
in order; `deleted` records the Redis keys deleted in order. -/
structure PassState where
  running : List (String × RawConfig)
  hashes : List (String × String)
  stopped : List String
  started : List String
  deleted : List String
deriving Repr, DecidableEq

/-- The derived buffer key `f"{site}_{stream_name}"` of a record whose
`site` key is present (`main.py` lines 106–112 and 121–125); a null site
renders as `"None"`. -/
def keyOf (site : Option String) (stream_name : Option String) : String :=
  pyFStrOpt site ++ "_" ++ stream_name.getD "prediction_visual"

/-- The derived key of a desired-state record, `none` when its `site` key
is absent (in which case the pass raises `KeyError`). -/
def desiredKey (c : RawConfig) : Option String :=
  c.site.map (fun s => keyOf s c.stream_name)

/-- The dict comprehension `\x7bconfig['video_url']: config for config in configurations\x7d`
(`main.py` lines 100–102): left-to-right dict comprehension, raising
`KeyError` at the first record with no `video_url` key. -/
def build_current_configs (acc : List (String × RawConfig)) :
    List RawConfig → Except String (List (String × RawConfig))
  | [] => .ok acc
  | c :: rest =>
      match c.video_url with
      | none => .error "KeyError: video_url"
      | some url => build_current_configs (pySet acc url c) rest

/-- The `current_keys` set comprehension (`main.py` lines 106–112),
raising `KeyError` at the first record with no `site` key.  Only
membership in the set is ever used, so a list suffices. -/
def build_current_keys (acc : List String) :
    List RawConfig → Except String (List String)
  | [] => .ok acc
  | c :: rest =>
      match c.site with
      | none => .error "KeyError: site"
      | some site => build_current_keys (acc ++ [keyOf site c.stream_name]) rest

/-- The body of the stop branch (`main.py` lines 128–138): stop the
process, delete the `running_processes` and `current_config_hashes`
entries, then delete the Redis key when no record of the new desired
state claims it.  The `del` on the hashes dict can raise `KeyError`. -/
def stopRemovedWorker (currentKeys : List String) (url key_to_delete : String)
    (st : PassState) : PassState × Option String :=
  match pyDelE st.hashes url with
  | .error e =>
      ({ st with stopped := st.stopped ++ [url],
                 running := pyDel st.running url }, some e)
  | .ok h =>
      ({ st with stopped := st.stopped ++ [url],
                 running := pyDel st.running url,
                 hashes := h,
                 deleted := if key_to_delete ∈ currentKeys then st.deleted
                            else st.deleted ++ [key_to_delete] }, none)

/-- One iteration of the loop over `list(self.running_processes.keys())`
(`main.py` lines 115–167): stop the worker if its record was removed,
turned falsy, or expired; restart it if its fingerprint changed. -/
def stopStep (isExp : Option String → Bool)
    (currentConfigs : List (String × RawConfig)) (currentKeys : List String)
    (url : String) (st : PassState) : PassState × Option String :=
  match pyGet st.running url with
  | none => (st, some ("KeyError: " ++ url))
  | some config_data =>
    match config_data.site with
    | none => (st, some "KeyError: site")
    | some site =>
      match pyGet currentConfigs url with
      | none =>
          stopRemovedWorker currentKeys url
            (keyOf site config_data.stream_name) st
      | some config =>
          if !config.isTruthy || isExp config.expire_date then
            stopRemovedWorker currentKeys url
              (keyOf site config_data.stream_name) st
          else
            match compute_config_hash config with
            | .error e => (st, some e)
            | .ok newHash =>
                if pyGet st.hashes url = some newHash then (st, none)
                else
                  ({ st with
                      stopped := st.stopped ++ [url],
                      started := st.started ++ [url],
                      running := pySet st.running url config,
                      hashes := pySet st.hashes url newHash,
                      deleted :=
                        if keyOf site config_data.stream_name ∈ currentKeys
                        then st.deleted
                        else st.deleted ++
                          [keyOf site config_data.stream_name] }, none)

/-- The loop over the snapshot of running URLs; an uncaught exception in
one iteration propagates and halts the whole pass. -/
def stopLoop (isExp : Option String → Bool)
    (currentConfigs : List (String × RawConfig)) (currentKeys : List String) :
    List String → PassState → PassState × Option String
  | [], st => (st, none)
  | url :: rest, st =>
      match stopStep isExp currentConfigs currentKeys url st with
      | (st1, some e) => (st1, some e)
      | (st1, none) => stopLoop isExp currentConfigs currentKeys rest st1

/-- One iteration of the loop over `current_configs.items()`
(`main.py` lines 169–187): skip expired records, start workers for
records not yet running.  The `running_processes` entry is assigned
before the fingerprint is computed, so a `KeyError` inside
`compute_config_hash` leaves the entry behind. -/
def startStep (isExp : Option String → Bool) (url : String)
    (config : RawConfig) (st : PassState) : PassState × Option String :=
  if isExp config.expire_date then (st, none)
  else if pyMem st.running url then (st, none)
  else
    match compute_config_hash config with
    | .error e =>
        ({ st with started := st.started ++ [url],
                   running := pySet st.running url config }, some e)
    | .ok h =>
        ({ st with started := st.started ++ [url],
                   running := pySet st.running url config,
                   hashes := pySet st.hashes url h }, none)

/-- The loop over the desired-state records in dict order. -/
def startLoop (isExp : Option String → Bool) :
    List (String × RawConfig) → PassState → PassState × Option String
  | [], st => (st, none)
  | (url, config) :: rest, st =>
      match startStep isExp url config st with
      | (st1, some e) => (st1, some e)
      | (st1, none) => startLoop isExp rest st1

/-- Embedding of `MainApp.reload_configurations` (`main.py` lines 93–187) on an
already-parsed configuration list. -/
def reload_configurations (isExp : Option String → Bool)
    (st : ActualState) (configurations : List RawConfig) :
    PassState × Option String :=
  let st0 : PassState :=
    { running := st.running, hashes := st.hashes,
      stopped := [], started := [], deleted := [] }
  match build_current_configs [] configurations with
  | .error e => (st0, some e)
  | .ok currentConfigs =>
    match build_current_keys [] configurations with
    | .error e => (st0, some e)
    | .ok currentKeys =>
      match stopLoop isExp currentConfigs currentKeys (pyKeys st.running) st0 with
      | (st1, some e) => (st1, some e)
      | (st1, none) => startLoop isExp currentConfigs st1

/-- A record with `video_url` but no `site` key: processing it raises
`KeyError` while the `current_keys` set is being built. -/
def cfgBad : RawConfig :=
  { video_url := some "rtsp://bad", model_key := some "yolo11n",
    site := none, stream_name := none, notifications := some none,
    detect_with_server := some false, expire_date := none,
    line_token := none, language := none }

/-- A well-formed record that should be reconciled. -/
def cfgGood : RawConfig :=
  { video_url := some "rtsp://good", model_key := some "yolo11n",
    site := some (some "SiteG"), stream_name := none,
    notifications := some none, detect_with_server := some false,
    expire_date := none, line_token := none, language := none }

/-- A surviving record with a different URL but the same derived key as
the worker of `cfgA`. -/
def cfgReuse : RawConfig :=
  { video_url := some "rtsp://camera-b", model_key := some "yolo11n",
    site := some (some "SiteA"), stream_name := none,
    notifications := some none, detect_with_server := some false,
    expire_date := none, line_token := none, language := none }

/-- An actual state with one running worker, the worker of `cfgA`. -/
def stW : ActualState :=
  ⟨[("rtsp://camera-a", cfgA)], [("rtsp://camera-a", hashAB)]⟩

/-! ## Congruence of the pass under an extra expired record (C3) -/

/-- Two pass states that agree on everything except the Redis-deletion
log.  Adding an expired record to the desired state can change which
deletions are suppressed, but (C3) nothing else. -/
def EqExceptDeleted (s t : PassState) : Prop :=
  s.running = t.running ∧ s.hashes = t.hashes ∧
  s.stopped = t.stopped ∧ s.started = t.started

/-- A concrete expiry predicate: expired exactly when the date string is
`2020-01-01`. -/
def isExpW : Option String → Bool := fun o => o == some "2020-01-01"

/-- A well-formed expired record with a URL fresh to the witness desired
state. -/
def cfgExpired : RawConfig :=
  { video_url := some "rtsp://camera-x", model_key := some "yolo11n",
    site := some (some "SiteX"), stream_name := none,
    notifications := some none, detect_with_server := some false,
    expire_date := some "2020-01-01", line_token := none, language := none }

/-! ## The notification decision pass (`MainApp.process_single_stream`)

One pass over the configured channels for one captured frame
(`main.py` lines 266–397).  The externals are parameters: `translateOne`
models `Translator.translate_warning` applied to one warning (modelled
from the spec: "translate warnings to that channel's language"), and
`sendStatus` models the HTTP status returned by
`LineNotifier.send_notification` for a given token and message.  The
frame timestamp is a rational (Python float), the stored
`last_notification_time` an integer as in the source. -/

/-- What happened on one channel during a notification pass. -/
inductive ChannelEvent where
  | suppressed (token : String)
  | skippedNoMessage (token : String)
  | sendOk (token message : String)
  | sendFail (token message : String)
deriving Repr, DecidableEq

/-- Modelled from the spec: `Translator.translate_warning` is external to
the verified sources; each warning is translated to the channel's
language by an arbitrary per-warning translation function. -/
def translate_warning (translateOne : String → String → String)
    (warnings : List String) (language : String) : List String :=
  warnings.map (fun w => translateOne w language)

/-- The first warning containing `'controlled area'`
(`main.py` lines 285–293). -/
def controlled_zone_warning_str (warnings : List String) : Option String :=
  warnings.find? (fun w => strContains w "controlled area")

/-- The same warning as a singleton list for translation
(`main.py` lines 296–298). -/
def controlled_zone_warning (warnings : List String) : List String :=
  match controlled_zone_warning_str warnings with
  | none => []
  | some w => [w]

/-- Python `str` of a list of strings (the f-string in `main.py` line 352
interpolates the translated list itself, rendering it like
`['warning']`). -/
def pyReprStrList : List String → List Char
  | [] => []
  | [x] => pyReprStr x
  | x :: rest => pyReprStr x ++ ", ".data ++ pyReprStrList rest

/-- Message composition for one channel (`main.py` lines 322–363):
outside 07–18 with a controlled-zone warning the message carries exactly
that warning (translated, rendered as a singleton list); during 07–18
with any warnings it carries all translated warnings joined by newlines;
otherwise no message.  `timeStr` is the externally formatted
`detection_time`, `current_hour` its hour. -/
def composeMessage (translateOne : String → String → String)
    (stream_name timeStr : String) (current_hour : ℤ)
    (warnings : List String) (language : String) : Option String :=
  let translated_warnings := translate_warning translateOne warnings language
  if controlled_zone_warning warnings ≠ [] ∧
      ¬(7 ≤ current_hour ∧ current_hour < 18) then
    some (stream_name ++ "\n[" ++ timeStr ++ "]\n" ++
      String.mk ('[' :: pyReprStrList
        (translate_warning translateOne
          (controlled_zone_warning warnings) language) ++ [']']))
  else if translated_warnings ≠ [] ∧
      (7 ≤ current_hour ∧ current_hour < 18) then
    some (stream_name ++ "\n[" ++ timeStr ++ "]\n" ++
      String.intercalate "\n" translated_warnings)
  else none

/-- The loop over `notifications.items()` (`main.py` lines 310–397):
skip a channel while the stream is inside the 300-second cooldown, skip
it when no message is composed, otherwise send; a 200 status updates
`last_notification_time` to `int(timestamp)` immediately, any other
status leaves it unchanged and the pass moves on without retrying. -/
def notifyLoop (translateOne : String → String → String)
    (sendStatus : String → String → ℕ)
    (stream_name timeStr : String) (current_hour : ℤ)
    (warnings : List String) (timestamp : ℚ) :
    List (String × String) → ℤ → List ChannelEvent × ℤ
  | [], last => ([], last)
  | (line_token, language) :: rest, last =>
      if timestamp - (last : ℚ) < 300 then
        let p := notifyLoop translateOne sendStatus stream_name timeStr
          current_hour warnings timestamp rest last
        (.suppressed line_token :: p.1, p.2)
      else
        match composeMessage translateOne stream_name timeStr current_hour
            warnings language with
        | none =>
            let p := notifyLoop translateOne sendStatus stream_name timeStr
              current_hour warnings timestamp rest last
            (.skippedNoMessage line_token :: p.1, p.2)
        | some message =>
            if sendStatus line_token message = 200 then
              let p := notifyLoop translateOne sendStatus stream_name timeStr
                current_hour warnings timestamp rest (pyInt timestamp)
              (.sendOk line_token message :: p.1, p.2)
            else
              let p := notifyLoop translateOne sendStatus stream_name timeStr
                current_hour warnings timestamp rest last
              (.sendFail line_token message :: p.1, p.2)

/-- Initialisation of `last_notification_time` (`main.py` line 267):
`int(time.time()) - 300`. -/
def init_last_notification_time (startTime : ℚ) : ℤ :=
  pyInt startTime - 300

/-- A concrete per-warning translation. -/
def trW : String → String → String := fun w lang => lang ++ ":" ++ w

/-- A concrete transport: token `tokA` succeeds, everything else fails. -/
def sendW : String → String → ℕ := fun tok _ => if tok = "tokA" then 200 else 500

/-- The concrete message composed during working hours for one warning. -/
def msgW : String := "cam" ++ "\n[" ++ "T" ++ "]\n" ++ "en:w"

/-! ## C7: adaptive capture backpressure -/

/-- Modelled from the spec: the `StreamCapture` state relevant to the
capture interval.  The class body lives in `src/stream_capture.py`, which
is not among the verified sources; its unit test
`test_update_capture_interval` pins the setter behaviour. -/
structure StreamCapture where
  stream_url : String
  capture_interval : ℤ
deriving Repr, DecidableEq

/-- Modelled from the spec: `StreamCapture.update_capture_interval`
stores the interval reported by the caller. -/
def update_capture_interval (sc : StreamCapture) (i : ℤ) : StreamCapture :=
  { sc with capture_interval := i }

/-- The caller-side computation after each processed frame
(`main.py` lines 440–444): `new_interval = int(processing_time) + 5`. -/
def new_capture_interval (processing_time : ℚ) : ℤ :=
  pyInt processing_time + 5

/-! ## C8: fallback quality selection (spec-modelled)

`src/stream_capture.py` is not among the verified sources — only its unit
tests are — so `select_quality_based_on_speed` is modelled from the spec
and pinned against the four behaviours the tests fix. -/

/-- Modelled from the spec: the fixed quality ladder, best first. -/
def quality_ladder : List String :=
  ["best", "1080p", "720p", "480p", "360p", "240p"]

/-- Modelled from the spec: the portion of the ladder allowed under the
measured download capacity in Mbps — at least 10 unrestricted, 5 to 10
capped at 720p, below 5 capped at 480p. -/
def allowed_qualities (speed : ℚ) : List String :=
  if 10 ≤ speed then quality_ladder
  else if 5 ≤ speed then ["720p", "480p", "360p", "240p"]
  else ["480p", "360p", "240p"]

/-- Modelled from the spec: among the advertised variants (name ↦ URL),
select the URL of the highest-quality variant at or below the capacity
cap; `none` (a fatal condition for the capture session) when no
advertised variant satisfies the cap. -/
def select_quality_based_on_speed (speed : ℚ)
    (streams : List (String × String)) : Option String :=
  (allowed_qualities speed).findSome? (fun q => pyGet streams q)

/-! ## C9: who deletes buffer-store keys -/

/-- External buffer-store operations. -/
inductive RedisAction where
  | push (key : String)
  | del (key : String)
deriving Repr, DecidableEq

/-- The derived key a worker uses, from `process_streams`
(`main.py` lines 505–511): `site = config.get('site')` (absent and null
collapse to Python `None`, rendered `"None"` inside the f-string), then
`f"{site}_{stream_name}"`. -/
def worker_derived_key (c : RawConfig) : String :=
  pyFStrOpt c.site.join ++ "_" ++ c.stream_name.getD "prediction_visual"

/-- The buffer-store operations one stream worker performs over its
lifetime (`process_single_stream` pushes one frame per loop iteration to
its derived key, `main.py` lines 427–438; the `finally:` block of
`process_streams`, lines 505–511, deletes that key when the worker
terminates — on any termination path). -/
def worker_redis_actions (c : RawConfig) (frames : ℕ) : List RedisAction :=
  List.replicate frames (.push (worker_derived_key c)) ++
    [.del (worker_derived_key c)]

/-! # Theorems -/

theorem parseLit_round (pat rest : List Char) :
    parseLit pat (pat ++ rest) = some rest := by
  induction pat with
  | nil => simp [parseLit]
  | cons p ps ih => simp [parseLit, ih]

theorem stringMk_data (s : String) : String.mk s.data = s := rfl

theorem parseStrTail_round (s rest : List Char) :
    parseStrTail (escList s ++ '\'' :: rest) = some (s, rest) := by
  simp only [parseStrTail]
  induction s with
  | nil => simp [escList, parseStrTailEsc]
  | cons c t ih =>
      by_cases hb : c = '\\'
      · subst hb
        simp [escList, escChar, parseStrTailEsc, ih]
      · by_cases hq : c = '\''
        · subst hq
          simp [escList, escChar, parseStrTailEsc, ih]
        · simp [escList, escChar, parseStrTailEsc, hb, hq, ih]

theorem parseStrLit_round (s : String) (rest : List Char) :
    parseStrLit (pyReprStr s ++ rest) = some (s, rest) := by
  have h : pyReprStr s ++ rest = '\'' :: (escList s.data ++ '\'' :: rest) := by
    simp [pyReprStr]
  rw [h]
  simp [parseStrLit, parseStrTail_round, stringMk_data]

theorem parseOptStr_round (o : Option String) (rest : List Char) :
    parseOptStr (pyReprOptStr o ++ rest) = some (o, rest) := by
  cases o with
  | none => simp [pyReprOptStr, parseOptStr, parseLit, parseLit_round]
  | some s =>
      have h : pyReprOptStr (some s) ++ rest =
          '\'' :: (escList s.data ++ '\'' :: rest) := by
        simp [pyReprOptStr, pyReprStr]
      rw [h]
      simp [parseOptStr, parseStrLit, parseStrTail_round, stringMk_data]

theorem parseBool_round (b : Bool) (rest : List Char) :
    parseBool (pyReprBool b ++ rest) = some (b, rest) := by
  cases b <;> simp [pyReprBool, parseBool, parseLit]

theorem pyReprStr_length_pos (s : String) : 1 ≤ (pyReprStr s).length := by
  simp [pyReprStr]

theorem length_le_pyReprEntries (entries : List (String × String)) :
    entries.length ≤ (pyReprEntries entries).length := by
  induction entries with
  | nil => simp [pyReprEntries]
  | cons e t ih =>
      obtain ⟨k, v⟩ := e
      have h1 := pyReprStr_length_pos k
      cases t with
      | nil =>
          simp only [pyReprEntries, List.length_append, List.length_cons,
            List.length_nil]
          omega
      | cons e' t' =>
          simp only [pyReprEntries, List.length_append, List.length_cons] at ih ⊢
          omega

/-- Stepping lemma: parse one final dictionary entry. -/
theorem parseEntryList_last (fuel : ℕ) (k v : String) (rest : List Char) :
    parseEntryList (fuel + 1)
      (pyReprStr k ++ (": ".data ++ (pyReprStr v ++ '}' :: rest))) =
      some ([(k, v)], rest) := by
  simp [pyReprStr, parseEntryList, parseStrLit, parseStrTail_round,
    parseLit, stringMk_data]

/-- Stepping lemma: parse one dictionary entry followed by more. -/
theorem parseEntryList_more (fuel : ℕ) (k v : String) (tail rest : List Char)
    (es : List (String × String))
    (htail : parseEntryList fuel tail = some (es, rest)) :
    parseEntryList (fuel + 1)
      (pyReprStr k ++ (": ".data ++ (pyReprStr v ++ ',' :: ' ' :: tail))) =
      some ((k, v) :: es, rest) := by
  simp [pyReprStr, parseEntryList, parseStrLit, parseStrTail_round,
    parseLit, stringMk_data, htail]

theorem parseEntryList_round (entries : List (String × String))
    (fuel : ℕ) (rest : List Char) (hfuel : entries.length + 1 ≤ fuel) :
    parseEntryList fuel (pyReprEntries entries ++ '}' :: rest) =
      some (entries, rest) := by
  induction entries generalizing fuel rest with
  | nil =>
      obtain ⟨f, rfl⟩ : ∃ f, fuel = f + 1 := ⟨fuel - 1, by omega⟩
      simp [pyReprEntries, parseEntryList]
  | cons e t ih =>
      obtain ⟨k, v⟩ := e
      obtain ⟨f, rfl⟩ : ∃ f, fuel = f + 1 := ⟨fuel - 1, by omega⟩
      cases t with
      | nil =>
          have h : pyReprEntries [(k, v)] ++ '}' :: rest =
              pyReprStr k ++ (": ".data ++ (pyReprStr v ++ '}' :: rest)) := by
            simp [pyReprEntries]
          rw [h]
          exact parseEntryList_last f k v rest
      | cons e' t' =>
          have ht : parseEntryList f (pyReprEntries (e' :: t') ++ '}' :: rest) =
              some (e' :: t', rest) := by
            refine ih f rest ?_
            simp only [List.length_cons] at hfuel ⊢
            omega
          have h : pyReprEntries ((k, v) :: e' :: t') ++ '}' :: rest =
              pyReprStr k ++ (": ".data ++ (pyReprStr v ++
                ',' :: ' ' :: (pyReprEntries (e' :: t') ++ '}' :: rest))) := by
            simp [pyReprEntries]
          rw [h]
          exact parseEntryList_more f k v _ rest _ ht

/-- Stepping lemma: parse the rendering of a non-null notifications
dictionary. -/
theorem parseNotifs_brace (X : List Char) (entries : List (String × String))
    (rest : List Char)
    (hp : parseEntryList (X.length + 1) X = some (entries, rest)) :
    parseNotifs ('{' :: X) = some (some entries, rest) := by
  simp [parseNotifs, hp]

theorem parseNotifs_round (nf : Option (List (String × String)))
    (rest : List Char) :
    parseNotifs (pyReprNotifs nf ++ rest) = some (nf, rest) := by
  cases nf with
  | none => simp [pyReprNotifs, parseNotifs, parseLit]
  | some entries =>
      have h : pyReprNotifs (some entries) ++ rest =
          '{' :: (pyReprEntries entries ++ '}' :: rest) := by
        simp [pyReprNotifs]
      rw [h]
      refine parseNotifs_brace _ entries rest ?_
      refine parseEntryList_round entries _ rest ?_
      have := length_le_pyReprEntries entries
      simp only [List.length_append, List.length_cons]
      omega

theorem parseRelevant_round (url mk : String) (site : Option String)
    (sn : String) (nf : Option (List (String × String))) (dws : Bool) :
    parseRelevant (renderRelevant url mk site sn nf dws) =
      some (url, mk, site, sn, nf, dws) := by
  simp only [parseRelevant, renderRelevant, List.append_eq,
    List.append_assoc, List.cons_append, List.nil_append, parseLit,
    parseStrLit_round, parseOptStr_round, parseNotifs_round,
    parseBool_round, Option.bind, reduceIte]

/-- The rendering of the relevant-config dictionary is injective in the
six relevant fields. -/
theorem renderRelevant_inj {u1 m1 : String} {s1 : Option String}
    {n1 : String} {f1 : Option (List (String × String))} {d1 : Bool}
    {u2 m2 : String} {s2 : Option String} {n2 : String}
    {f2 : Option (List (String × String))} {d2 : Bool}
    (h : renderRelevant u1 m1 s1 n1 f1 d1 = renderRelevant u2 m2 s2 n2 f2 d2) :
    u1 = u2 ∧ m1 = m2 ∧ s1 = s2 ∧ n1 = n2 ∧ f1 = f2 ∧ d1 = d2 := by
  have h1 := parseRelevant_round u1 m1 s1 n1 f1 d1
  have h2 := parseRelevant_round u2 m2 s2 n2 f2 d2
  rw [h] at h1
  rw [h1] at h2
  injection h2 with h2
  simp_all

/-- Inversion: a successful `compute_config_hash` exposes the five
directly indexed fields and the rendered hash string. -/
theorem compute_config_hash_ok {c : RawConfig} {s : String}
    (h : compute_config_hash c = .ok s) :
    ∃ url mk site notifs dws,
      c.video_url = some url ∧ c.model_key = some mk ∧ c.site = some site ∧
      c.notifications = some notifs ∧ c.detect_with_server = some dws ∧
      s = String.mk (renderRelevant url mk site
        (c.stream_name.getD "prediction_visual") notifs dws) := by
  rcases hu : c.video_url with _ | url
  · simp [compute_config_hash, hu] at h
  rcases hm : c.model_key with _ | mk
  · simp [compute_config_hash, hu, hm] at h
  rcases hs : c.site with _ | site
  · simp [compute_config_hash, hu, hm, hs] at h
  rcases hn : c.notifications with _ | notifs
  · simp [compute_config_hash, hu, hm, hs, hn] at h
  rcases hd : c.detect_with_server with _ | dws
  · simp [compute_config_hash, hu, hm, hs, hn, hd] at h
  refine ⟨url, mk, site, notifs, dws, rfl, rfl, rfl, rfl, rfl, ?_⟩
  simp [compute_config_hash, hu, hm, hs, hn, hd] at h
  exact h.symm

/-- C1: for stream-job configurations on which `compute_config_hash`
succeeds, fingerprint equality holds exactly when the two configurations
agree on video source URL, model selector, site, stream label (with its
default `"prediction_visual"`), notification targets, and detection-mode
flag — the expiry date does not enter the fingerprint, so configurations
agreeing on those six fields but differing in expiry hash equal, and
configurations differing in any of the six hash unequal. -/
theorem C1_fingerprint_eq_iff_six_fields
    (c1 c2 : RawConfig) (s1 s2 : String)
    (h1 : compute_config_hash c1 = .ok s1)
    (h2 : compute_config_hash c2 = .ok s2) :
    s1 = s2 ↔
      (c1.video_url = c2.video_url ∧ c1.model_key = c2.model_key ∧
       c1.site = c2.site ∧
       c1.stream_name.getD "prediction_visual" =
         c2.stream_name.getD "prediction_visual" ∧
       c1.notifications = c2.notifications ∧
       c1.detect_with_server = c2.detect_with_server) := by
  obtain ⟨u1, m1, st1, n1, d1, hu1, hm1, hs1, hn1, hd1, hr1⟩ :=
    compute_config_hash_ok h1
  obtain ⟨u2, m2, st2, n2, d2, hu2, hm2, hs2, hn2, hd2, hr2⟩ :=
    compute_config_hash_ok h2
  subst hr1; subst hr2
  constructor
  · intro h
    have hmk : renderRelevant u1 m1 st1
        (c1.stream_name.getD "prediction_visual") n1 d1 =
        renderRelevant u2 m2 st2
        (c2.stream_name.getD "prediction_visual") n2 d2 :=
      congrArg String.data h
    obtain ⟨e1, e2, e3, e4, e5, e6⟩ := renderRelevant_inj hmk
    refine ⟨?_, ?_, ?_, e4, ?_, ?_⟩ <;> simp_all
  · rintro ⟨e1, e2, e3, e4, e5, e6⟩
    rw [hu1, hu2] at e1
    rw [hm1, hm2] at e2
    rw [hs1, hs2] at e3
    rw [hn1, hn2] at e5
    rw [hd1, hd2] at e6
    injection e1 with e1
    injection e2 with e2
    injection e3 with e3
    injection e5 with e5
    injection e6 with e6
    rw [e1, e2, e3, e4, e5, e6]

/-- Witness for C1: `cfgA` and `cfgB` differ only in expiry date (and in
an explicitly spelled default stream label), and their fingerprints are
equal by the claim's theorem. -/
theorem C1_fingerprint_witness :
    compute_config_hash cfgA = .ok hashAB ∧
    compute_config_hash cfgB = .ok hashAB ∧
    cfgA.expire_date ≠ cfgB.expire_date ∧ hashAB = hashAB := by
  refine ⟨rfl, rfl, by decide, ?_⟩
  exact (C1_fingerprint_eq_iff_six_fields cfgA cfgB hashAB hashAB rfl rfl).mpr
    (by refine ⟨rfl, rfl, rfl, ?_, rfl, rfl⟩; decide)

/-! ## Dictionary lemmas -/

theorem pyGet_append_single_ne {α : Type} (d : List (String × α))
    (k k' : String) (v : α) (h : k ≠ k') :
    pyGet (d ++ [(k', v)]) k = pyGet d k := by
  induction d with
  | nil => simp [pyGet, Ne.symm h]
  | cons p rest ih =>
      obtain ⟨pk, pv⟩ := p
      by_cases hk : pk = k <;> simp [pyGet, hk, ih]

theorem pyGet_pySet_ne {α : Type} (d : List (String × α)) (k k' : String)
    (v : α) (h : k ≠ k') : pyGet (pySet d k' v) k = pyGet d k := by
  induction d with
  | nil => simp [pySet, pyGet, Ne.symm h]
  | cons p rest ih =>
      obtain ⟨pk, pv⟩ := p
      by_cases hp : pk = k'
      · subst hp
        simp [pySet, pyGet, Ne.symm h]
      · by_cases hk : pk = k <;> simp [pySet, pyGet, hp, hk, h, ih]

theorem pyGet_pyDel_ne {α : Type} (d : List (String × α)) (k k' : String)
    (h : k ≠ k') : pyGet (pyDel d k') k = pyGet d k := by
  induction d with
  | nil => rfl
  | cons p rest ih =>
      obtain ⟨pk, pv⟩ := p
      by_cases hp : pk = k'
      · subst hp
        simp [pyDel, pyGet, Ne.symm h, ih]
      · by_cases hk : pk = k <;> simp [pyDel, pyGet, hp, hk, h, ih]

theorem pyGet_isSome_mem {α : Type} (d : List (String × α)) (k : String)
    (v : α) (h : pyGet d k = some v) : k ∈ pyKeys d := by
  induction d with
  | nil => cases h
  | cons p rest ih =>
      obtain ⟨pk, pv⟩ := p
      by_cases hk : pk = k
      · simp [pyKeys, hk]
      · simp [pyGet, hk] at h
        simp [pyKeys] at ih ⊢
        exact Or.inr (ih h)

/-! ## Step lemmas for the stop loop -/

theorem srw_stopped (ck : List String) (url key : String) (st : PassState) :
    (stopRemovedWorker ck url key st).1.stopped = st.stopped ++ [url] := by
  cases hd : pyDelE st.hashes url <;> simp [stopRemovedWorker, hd]

theorem srw_running (ck : List String) (url key : String) (st : PassState) :
    (stopRemovedWorker ck url key st).1.running = pyDel st.running url := by
  cases hd : pyDelE st.hashes url <;> simp [stopRemovedWorker, hd]

theorem srw_deleted_cases (ck : List String) (url key : String)
    (st : PassState) :
    (stopRemovedWorker ck url key st).1.deleted = st.deleted ∨
    ((stopRemovedWorker ck url key st).1.deleted = st.deleted ++ [key] ∧
      key ∉ ck) := by
  simp only [stopRemovedWorker]
  cases hd : pyDelE st.hashes url with
  | error e => simp [hd]
  | ok hsh =>
      simp only [hd]
      split
      · left; rfl
      · next hnot => exact Or.inr ⟨rfl, hnot⟩

theorem srw_deletes (ck : List String) (url key : String) (st : PassState)
    (hk : key ∉ ck) (he : (stopRemovedWorker ck url key st).2 = none) :
    (stopRemovedWorker ck url key st).1.deleted = st.deleted ++ [key] := by
  simp only [stopRemovedWorker] at he ⊢
  cases hd : pyDelE st.hashes url with
  | error e => rw [hd] at he; cases he
  | ok hsh =>
      simp only [hd] at he ⊢
      split
      · next hmem => exact absurd hmem hk
      · rfl

theorem stopStep_stopped_sub (isExp : Option String → Bool)
    (cc : List (String × RawConfig)) (ck : List String) (url : String)
    (st : PassState) (x : String)
    (hx : x ∈ (stopStep isExp cc ck url st).1.stopped) :
    x ∈ st.stopped ∨ x = url := by
  unfold stopStep at hx
  split at hx
  · exact Or.inl hx
  · split at hx
    · exact Or.inl hx
    · split at hx
      · rw [srw_stopped] at hx
        simpa using hx
      · split at hx
        · rw [srw_stopped] at hx
          simpa using hx
        · split at hx
          · exact Or.inl hx
          · split at hx
            · exact Or.inl hx
            · simp at hx
              rcases hx with hx | hx
              · exact Or.inl hx
              · exact Or.inr hx

theorem stopStep_deleted_cases (isExp : Option String → Bool)
    (cc : List (String × RawConfig)) (ck : List String) (url : String)
    (st : PassState) :
    (stopStep isExp cc ck url st).1.deleted = st.deleted ∨
    (∃ k, (stopStep isExp cc ck url st).1.deleted = st.deleted ++ [k] ∧
      k ∉ ck) := by
  unfold stopStep
  split
  · left; rfl
  · split
    · left; rfl
    · split
      · rcases srw_deleted_cases ck url _ st with h | ⟨h, hk⟩
        · exact Or.inl h
        · exact Or.inr ⟨_, h, hk⟩
      · split
        · rcases srw_deleted_cases ck url _ st with h | ⟨h, hk⟩
          · exact Or.inl h
          · exact Or.inr ⟨_, h, hk⟩
        · split
          · left; rfl
          · split
            · left; rfl
            · split
              · left; rfl
              · next hnot => exact Or.inr ⟨_, rfl, hnot⟩

theorem stopStep_deleted_mono (isExp : Option String → Bool)
    (cc : List (String × RawConfig)) (ck : List String) (url : String)
    (st : PassState) (x : String) (hx : x ∈ st.deleted) :
    x ∈ (stopStep isExp cc ck url st).1.deleted := by
  rcases stopStep_deleted_cases isExp cc ck url st with h | ⟨k, h, _⟩ <;>
    rw [h] <;> simp [hx]

theorem stopStep_running_ne (isExp : Option String → Bool)
    (cc : List (String × RawConfig)) (ck : List String) (url : String)
    (st : PassState) (q : String) (h : q ≠ url) :
    pyGet (stopStep isExp cc ck url st).1.running q = pyGet st.running q := by
  unfold stopStep
  split
  · rfl
  · split
    · rfl
    · split
      · rw [srw_running]
        exact pyGet_pyDel_ne st.running q url h
      · split
        · rw [srw_running]
          exact pyGet_pyDel_ne st.running q url h
        · split
          · rfl
          · split
            · rfl
            · exact pyGet_pySet_ne _ q url _ h

theorem stopStep_stopped_ne (isExp : Option String → Bool)
    (cc : List (String × RawConfig)) (ck : List String) (url : String)
    (st : PassState) (q : String) (h : q ≠ url) :
    (q ∈ (stopStep isExp cc ck url st).1.stopped ↔ q ∈ st.stopped) := by
  unfold stopStep
  split
  · exact Iff.rfl
  · split
    · exact Iff.rfl
    · split
      · rw [srw_stopped]
        simp [h]
      · split
        · rw [srw_stopped]
          simp [h]
        · split
          · exact Iff.rfl
          · split
            · exact Iff.rfl
            · simp [h]

theorem stopStep_hit (isExp : Option String → Bool)
    (cc : List (String × RawConfig)) (ck : List String) (url : String)
    (st : PassState) (c : RawConfig) (site : Option String)
    (hrun : pyGet st.running url = some c) (hsite : c.site = some site)
    (hk : keyOf site c.stream_name ∉ ck)
    (herr : (stopStep isExp cc ck url st).2 = none) :
    (stopStep isExp cc ck url st).1 = st ∨
    keyOf site c.stream_name ∈ (stopStep isExp cc ck url st).1.deleted := by
  simp only [stopStep, hrun, hsite] at herr ⊢
  rcases h3 : pyGet cc url with _ | config <;> simp only [h3] at herr ⊢
  · right
    rw [srw_deletes _ _ _ _ hk herr]
    simp
  · by_cases h4 : (!config.isTruthy || isExp config.expire_date) = true
    · rw [if_pos h4] at herr ⊢
      right
      rw [srw_deletes _ _ _ _ hk herr]
      simp
    · rw [if_neg h4] at herr ⊢
      rcases h5 : compute_config_hash config with e | newHash <;>
        simp only [h5] at herr ⊢
      · simp at herr
      · by_cases h6 : pyGet st.hashes url = some newHash
        · rw [if_pos h6]
          left
          rfl
        · rw [if_neg h6]
          right
          simp [hk]

/-! ## Step lemmas phrased on an explicit result -/

theorem stopStep_stopped_sub' {isExp : Option String → Bool}
    {cc : List (String × RawConfig)} {ck : List String} {url : String}
    {st st1 : PassState} {e : Option String}
    (hstep : stopStep isExp cc ck url st = (st1, e)) {x : String}
    (hx : x ∈ st1.stopped) : x ∈ st.stopped ∨ x = url := by
  refine stopStep_stopped_sub isExp cc ck url st x ?_
  rw [hstep]
  exact hx

theorem stopStep_deleted_mono' {isExp : Option String → Bool}
    {cc : List (String × RawConfig)} {ck : List String} {url : String}
    {st st1 : PassState} {e : Option String}
    (hstep : stopStep isExp cc ck url st = (st1, e)) {x : String}
    (hx : x ∈ st.deleted) : x ∈ st1.deleted := by
  have h := stopStep_deleted_mono isExp cc ck url st x hx
  rwa [hstep] at h

theorem stopStep_deleted_cases' {isExp : Option String → Bool}
    {cc : List (String × RawConfig)} {ck : List String} {url : String}
    {st st1 : PassState} {e : Option String}
    (hstep : stopStep isExp cc ck url st = (st1, e)) :
    st1.deleted = st.deleted ∨
    (∃ k, st1.deleted = st.deleted ++ [k] ∧ k ∉ ck) := by
  have h := stopStep_deleted_cases isExp cc ck url st
  rwa [hstep] at h

theorem stopStep_running_ne' {isExp : Option String → Bool}
    {cc : List (String × RawConfig)} {ck : List String} {url : String}
    {st st1 : PassState} {e : Option String}
    (hstep : stopStep isExp cc ck url st = (st1, e)) {q : String}
    (h : q ≠ url) : pyGet st1.running q = pyGet st.running q := by
  have h2 := stopStep_running_ne isExp cc ck url st q h
  rwa [hstep] at h2

theorem stopStep_stopped_ne' {isExp : Option String → Bool}
    {cc : List (String × RawConfig)} {ck : List String} {url : String}
    {st st1 : PassState} {e : Option String}
    (hstep : stopStep isExp cc ck url st = (st1, e)) {q : String}
    (h : q ≠ url) : q ∈ st1.stopped ↔ q ∈ st.stopped := by
  have h2 := stopStep_stopped_ne isExp cc ck url st q h
  rwa [hstep] at h2

theorem stopStep_hit' {isExp : Option String → Bool}
    {cc : List (String × RawConfig)} {ck : List String} {url : String}
    {st st1 : PassState} {c : RawConfig} {site : Option String}
    (hstep : stopStep isExp cc ck url st = (st1, none))
    (hrun : pyGet st.running url = some c) (hsite : c.site = some site)
    (hk : keyOf site c.stream_name ∉ ck) :
    st1 = st ∨ keyOf site c.stream_name ∈ st1.deleted := by
  have h := stopStep_hit isExp cc ck url st c site hrun hsite hk
    (by rw [hstep])
  rwa [hstep] at h

/-! ## Loop lemmas for the stop and start loops -/

theorem stopLoop_deleted_mono (isExp : Option String → Bool)
    (cc : List (String × RawConfig)) (ck : List String) (x : String) :
    ∀ (urls : List String) (st : PassState), x ∈ st.deleted →
      x ∈ (stopLoop isExp cc ck urls st).1.deleted := by
  intro urls
  induction urls with
  | nil => intro st hx; exact hx
  | cons u rest ih =>
      intro st hx
      rcases hstep : stopStep isExp cc ck u st with ⟨st1, e⟩
      have hx1 : x ∈ st1.deleted := stopStep_deleted_mono' hstep hx
      cases e with
      | none => simpa [stopLoop, hstep] using ih st1 hx1
      | some e' => simpa [stopLoop, hstep] using hx1

theorem stopLoop_stopped_subset (isExp : Option String → Bool)
    (cc : List (String × RawConfig)) (ck : List String) (x : String) :
    ∀ (urls : List String) (st : PassState),
      x ∈ (stopLoop isExp cc ck urls st).1.stopped →
      x ∈ st.stopped ∨ x ∈ urls := by
  intro urls
  induction urls with
  | nil =>
      intro st hx
      exact Or.inl hx
  | cons u rest ih =>
      intro st hx
      rcases hstep : stopStep isExp cc ck u st with ⟨st1, e⟩
      cases e with
      | some e' =>
          simp only [stopLoop, hstep] at hx
          rcases stopStep_stopped_sub' hstep hx with h | h
          · exact Or.inl h
          · subst h; simp
      | none =>
          simp only [stopLoop, hstep] at hx
          rcases ih st1 hx with h | h
          · rcases stopStep_stopped_sub' hstep h with h2 | h2
            · exact Or.inl h2
            · subst h2; simp
          · simp [h]

theorem stopLoop_deleted_new (isExp : Option String → Bool)
    (cc : List (String × RawConfig)) (ck : List String) (x : String) :
    ∀ (urls : List String) (st : PassState),
      x ∈ (stopLoop isExp cc ck urls st).1.deleted →
      x ∈ st.deleted ∨ x ∉ ck := by
  intro urls
  induction urls with
  | nil => intro st hx; exact Or.inl hx
  | cons u rest ih =>
      intro st hx
      rcases hstep : stopStep isExp cc ck u st with ⟨st1, e⟩
      have hlift : x ∈ st1.deleted → x ∈ st.deleted ∨ x ∉ ck := by
        intro h1
        rcases stopStep_deleted_cases' hstep with h | ⟨k, h, hkck⟩
        · rw [h] at h1; exact Or.inl h1
        · rw [h] at h1
          rcases List.mem_append.mp h1 with h2 | h2
          · exact Or.inl h2
          · simp at h2; subst h2; exact Or.inr hkck
      cases e with
      | some e' =>
          simp only [stopLoop, hstep] at hx
          exact hlift hx
      | none =>
          simp only [stopLoop, hstep] at hx
          rcases ih st1 hx with h | h
          · exact hlift h
          · exact Or.inr h

theorem stopLoop_hits (isExp : Option String → Bool)
    (cc : List (String × RawConfig)) (ck : List String)
    (url : String) (c : RawConfig) (site : Option String)
    (hsite : c.site = some site) (hk : keyOf site c.stream_name ∉ ck) :
    ∀ (urls : List String) (st : PassState), urls.Nodup → url ∈ urls →
      pyGet st.running url = some c → url ∉ st.stopped →
      url ∈ (stopLoop isExp cc ck urls st).1.stopped →
      (stopLoop isExp cc ck urls st).2 = none →
      keyOf site c.stream_name ∈ (stopLoop isExp cc ck urls st).1.deleted := by
  intro urls
  induction urls with
  | nil => intro st _ hmem; cases hmem
  | cons u rest ih =>
      intro st hnd hmem hrun hnot hstop herr
      rcases hstep : stopStep isExp cc ck u st with ⟨st1, e⟩
      cases e with
      | some e' => simp [stopLoop, hstep] at herr
      | none =>
          simp only [stopLoop, hstep] at hstop herr ⊢
          by_cases hu : u = url
          · subst hu
            rcases stopStep_hit' hstep hrun hsite hk with hid | hdel
            · subst hid
              rcases stopLoop_stopped_subset isExp cc ck u rest st1 hstop
                with h | h
              · exact absurd h hnot
              · exact absurd h (List.nodup_cons.mp hnd).1
            · exact stopLoop_deleted_mono isExp cc ck _ rest st1 hdel
          · have hne : url ≠ u := fun hh => hu hh.symm
            have hrun1 : pyGet st1.running url = some c := by
              rw [stopStep_running_ne' hstep hne]; exact hrun
            have hnot1 : url ∉ st1.stopped := fun hcon =>
              hnot ((stopStep_stopped_ne' hstep hne).mp hcon)
            exact ih st1 (List.nodup_cons.mp hnd).2
              ((List.mem_cons.mp hmem).resolve_left hne) hrun1 hnot1 hstop herr

theorem startStep_stopped (isExp : Option String → Bool) (url : String)
    (config : RawConfig) (st : PassState) :
    (startStep isExp url config st).1.stopped = st.stopped := by
  simp only [startStep]
  split
  · rfl
  · split
    · rfl
    · cases h : compute_config_hash config <;> simp [h]

theorem startStep_deleted (isExp : Option String → Bool) (url : String)
    (config : RawConfig) (st : PassState) :
    (startStep isExp url config st).1.deleted = st.deleted := by
  simp only [startStep]
  split
  · rfl
  · split
    · rfl
    · cases h : compute_config_hash config <;> simp [h]

theorem startLoop_stopped (isExp : Option String → Bool) :
    ∀ (l : List (String × RawConfig)) (st : PassState),
      (startLoop isExp l st).1.stopped = st.stopped := by
  intro l
  induction l with
  | nil => intro st; rfl
  | cons p rest ih =>
      intro st
      obtain ⟨url, config⟩ := p
      rcases hstep : startStep isExp url config st with ⟨st1, e⟩
      have h1 : st1.stopped = st.stopped := by
        have h := startStep_stopped isExp url config st
        rwa [hstep] at h
      cases e with
      | some e' => simpa [startLoop, hstep] using h1
      | none =>
          simp only [startLoop, hstep]
          rw [ih st1, h1]

theorem startLoop_deleted (isExp : Option String → Bool) :
    ∀ (l : List (String × RawConfig)) (st : PassState),
      (startLoop isExp l st).1.deleted = st.deleted := by
  intro l
  induction l with
  | nil => intro st; rfl
  | cons p rest ih =>
      intro st
      obtain ⟨url, config⟩ := p
      rcases hstep : startStep isExp url config st with ⟨st1, e⟩
      have h1 : st1.deleted = st.deleted := by
        have h := startStep_deleted isExp url config st
        rwa [hstep] at h
      cases e with
      | some e' => simpa [startLoop, hstep] using h1
      | none =>
          simp only [startLoop, hstep]
          rw [ih st1, h1]

/-! ## C4: behaviour of the pass on malformed records -/

theorem build_current_configs_isOk (cfgs : List RawConfig)
    (h : ∀ c ∈ cfgs, c.video_url.isSome) (acc : List (String × RawConfig)) :
    ∃ m, build_current_configs acc cfgs = .ok m := by
  induction cfgs generalizing acc with
  | nil => exact ⟨acc, rfl⟩
  | cons c rest ih =>
      have hc := h c (by simp)
      rcases hv : c.video_url with _ | url
      · rw [hv] at hc; cases hc
      · simpa [build_current_configs, hv] using
          ih (fun c' hm => h c' (by simp [hm])) (pySet acc url c)

theorem build_current_keys_hasErr (cfgs : List RawConfig)
    (h : ∃ c ∈ cfgs, c.site = none) (acc : List String) :
    ∃ e, build_current_keys acc cfgs = .error e := by
  induction cfgs generalizing acc with
  | nil => simp at h
  | cons c rest ih =>
      rcases hs : c.site with _ | site
      · exact ⟨"KeyError: site", by simp [build_current_keys, hs]⟩
      · obtain ⟨c', hc', hnone⟩ := h
        rcases List.mem_cons.mp hc' with rfl | hmem
        · rw [hs] at hnone; cases hnone
        · simpa [build_current_keys, hs] using ih ⟨c', hmem, hnone⟩ _

/-- C4, counterexample to the claim as stated: with a malformed record
(`cfgBad`, missing `site`) followed by a well-formed record (`cfgGood`),
the reconciliation pass raises `KeyError` and the well-formed record is
never reconciled — no worker is started, contradicting "logs and skips
that record and continues reconciling the remaining records". -/
theorem C4_counterexample_malformed_aborts :
    (reload_configurations (fun _ => false)
      ⟨[], []⟩ [cfgBad, cfgGood]).2 = some "KeyError: site" ∧
    (reload_configurations (fun _ => false)
      ⟨[], []⟩ [cfgBad, cfgGood]).1.started = [] := by
  constructor <;> rfl

/-- C4 (amended): an error arising while processing a malformed record is
NOT isolated: a record whose `site` key is missing makes the whole
reconciliation pass raise `KeyError` before any record is reconciled —
the actual state is left untouched and no worker is started, stopped, or
has its buffer key deleted. -/
theorem C4_malformed_record_aborts_pass
    (isExp : Option String → Bool) (st : ActualState) (cfgs : List RawConfig)
    (hurl : ∀ c ∈ cfgs, c.video_url.isSome)
    (hbad : ∃ c ∈ cfgs, c.site = none) :
    (reload_configurations isExp st cfgs).2.isSome ∧
    (reload_configurations isExp st cfgs).1.running = st.running ∧
    (reload_configurations isExp st cfgs).1.hashes = st.hashes ∧
    (reload_configurations isExp st cfgs).1.stopped = [] ∧
    (reload_configurations isExp st cfgs).1.started = [] ∧
    (reload_configurations isExp st cfgs).1.deleted = [] := by
  obtain ⟨m, hm⟩ := build_current_configs_isOk cfgs hurl []
  obtain ⟨e, he⟩ := build_current_keys_hasErr cfgs hbad []
  simp [reload_configurations, hm, he]

/-- Witness for the amended C4 at a concrete input. -/
theorem C4_abort_witness :
    (reload_configurations (fun _ => false)
        ⟨[], []⟩ [cfgBad, cfgGood]).2.isSome ∧
    (reload_configurations (fun _ => false)
        ⟨[], []⟩ [cfgBad, cfgGood]).1.running = ([] : List (String × RawConfig)) ∧
    (reload_configurations (fun _ => false)
        ⟨[], []⟩ [cfgBad, cfgGood]).1.hashes = ([] : List (String × String)) ∧
    (reload_configurations (fun _ => false)
        ⟨[], []⟩ [cfgBad, cfgGood]).1.stopped = [] ∧
    (reload_configurations (fun _ => false)
        ⟨[], []⟩ [cfgBad, cfgGood]).1.started = [] ∧
    (reload_configurations (fun _ => false)
        ⟨[], []⟩ [cfgBad, cfgGood]).1.deleted = [] :=
  C4_malformed_record_aborts_pass (fun _ => false) ⟨[], []⟩ [cfgBad, cfgGood]
    (by decide) ⟨cfgBad, by simp, rfl⟩

/-! ## C2: buffer-key deletion during reconciliation -/

theorem build_current_keys_mem :
    ∀ (cfgs : List RawConfig) (acc ks : List String),
      build_current_keys acc cfgs = .ok ks →
      ∀ x, (x ∈ ks ↔ x ∈ acc ∨ ∃ c ∈ cfgs, desiredKey c = some x) := by
  intro cfgs
  induction cfgs with
  | nil =>
      intro acc ks h x
      simp only [build_current_keys] at h
      injection h with h
      subst h
      simp
  | cons c rest ih =>
      intro acc ks h x
      rcases hs : c.site with _ | site
      · simp [build_current_keys, hs] at h
      · simp only [build_current_keys, hs] at h
        rw [ih (acc ++ [keyOf site c.stream_name]) ks h x]
        simp only [List.mem_append, List.mem_singleton, desiredKey, hs]
        constructor
        · rintro ((h1 | h1) | ⟨c', hc', h1⟩)
          · exact Or.inl h1
          · exact Or.inr ⟨c, by simp, by simp [desiredKey, hs, h1]⟩
          · exact Or.inr ⟨c', by simp [hc'], h1⟩
        · rintro (h1 | ⟨c', hc', h1⟩)
          · exact Or.inl (Or.inl h1)
          · rcases List.mem_cons.mp hc' with rfl | hmem
            · simp [desiredKey, hs] at h1
              exact Or.inl (Or.inr h1.symm)
            · exact Or.inr ⟨c', hmem, h1⟩

/-- Inversion of a successful reconciliation pass into its stages. -/
theorem reload_ok_inv (isExp : Option String → Bool) (st : ActualState)
    (cfgs : List RawConfig)
    (herr : (reload_configurations isExp st cfgs).2 = none) :
    ∃ cc ck st1, build_current_configs [] cfgs = .ok cc ∧
      build_current_keys [] cfgs = .ok ck ∧
      stopLoop isExp cc ck (pyKeys st.running)
        ⟨st.running, st.hashes, [], [], []⟩ = (st1, none) ∧
      reload_configurations isExp st cfgs = startLoop isExp cc st1 := by
  rcases hcc : build_current_configs [] cfgs with e | cc
  · simp [reload_configurations, hcc] at herr
  rcases hck : build_current_keys [] cfgs with e | ck
  · simp [reload_configurations, hcc, hck] at herr
  rcases hsl : stopLoop isExp cc ck (pyKeys st.running)
      ⟨st.running, st.hashes, [], [], []⟩ with ⟨st1, e1⟩
  cases e1 with
  | some e' => simp [reload_configurations, hcc, hck, hsl] at herr
  | none =>
      exact ⟨cc, ck, st1, rfl, rfl, hsl,
        by simp [reload_configurations, hcc, hck, hsl]⟩

/-- C2: when a reconciliation pass stops a worker (its URL was removed,
its record expired or turned falsy, or its fingerprint changed), the
derived buffer key `site_stream` of the stopped worker's stored config is
deleted from the external store if and only if no record of the new
desired state claims that key; in particular, removal of a record whose
derived key is reused by another surviving record never deletes the
key. -/
theorem C2_stop_deletes_key_iff
    (isExp : Option String → Bool) (st : ActualState) (cfgs : List RawConfig)
    (url : String) (c : RawConfig) (site : Option String)
    (hnd : (pyKeys st.running).Nodup)
    (hrun : pyGet st.running url = some c)
    (hsite : c.site = some site)
    (hstopped : url ∈ (reload_configurations isExp st cfgs).1.stopped)
    (herr : (reload_configurations isExp st cfgs).2 = none) :
    (keyOf site c.stream_name ∈ (reload_configurations isExp st cfgs).1.deleted
      ↔ ¬ ∃ c' ∈ cfgs, desiredKey c' = some (keyOf site c.stream_name)) := by
  obtain ⟨cc, ck, st1, hcc, hck, hsl, heq⟩ := reload_ok_inv isExp st cfgs herr
  rw [heq] at hstopped ⊢
  rw [startLoop_stopped] at hstopped
  rw [startLoop_deleted]
  have hckiff : ∀ x, x ∈ ck ↔ ∃ c' ∈ cfgs, desiredKey c' = some x := by
    intro x
    have h := build_current_keys_mem cfgs [] ck hck x
    simpa using h
  constructor
  · intro hdel
    have h := stopLoop_deleted_new isExp cc ck (keyOf site c.stream_name)
      (pyKeys st.running) ⟨st.running, st.hashes, [], [], []⟩
      (by rw [hsl]; exact hdel)
    rcases h with h | h
    · simp at h
    · exact fun hex => h ((hckiff _).mpr hex)
  · intro hnex
    have hknotck : keyOf site c.stream_name ∉ ck :=
      fun hmem => hnex ((hckiff _).mp hmem)
    have h := stopLoop_hits isExp cc ck url c site hsite hknotck
      (pyKeys st.running) ⟨st.running, st.hashes, [], [], []⟩
      hnd (pyGet_isSome_mem st.running url c hrun) hrun
      (by simp) (by rw [hsl]; exact hstopped) (by rw [hsl])
    rw [hsl] at h
    exact h

/-- Witness for C2: the worker of `cfgA` is stopped (its URL is gone from
the desired state), but its derived key is reused by the surviving record
`cfgReuse`, so the key is not deleted. -/
theorem C2_reuse_witness :
    "rtsp://camera-a" ∈ (reload_configurations (fun _ => false) stW
        [cfgReuse]).1.stopped ∧
    (reload_configurations (fun _ => false) stW [cfgReuse]).2 = none ∧
    keyOf (some "SiteA") cfgA.stream_name ∉
      (reload_configurations (fun _ => false) stW [cfgReuse]).1.deleted := by
  refine ⟨by decide, by decide, ?_⟩
  intro hdel
  have h := C2_stop_deletes_key_iff (fun _ => false) stW [cfgReuse]
    "rtsp://camera-a" cfgA (some "SiteA") (by decide) rfl rfl
    (by decide) (by decide)
  exact (h.mp hdel) ⟨cfgReuse, by simp, rfl⟩

/-! ## Further dictionary lemmas (for C3) -/

theorem pyGet_pySet_self {α : Type} (d : List (String × α)) (k : String)
    (v : α) : pyGet (pySet d k v) k = some v := by
  induction d with
  | nil => simp [pySet, pyGet]
  | cons p rest ih =>
      obtain ⟨pk, pv⟩ := p
      by_cases hp : pk = k <;> simp [pySet, pyGet, hp, ih]

theorem pyGet_none_of_not_mem {α : Type} (d : List (String × α)) (k : String)
    (h : k ∉ pyKeys d) : pyGet d k = none := by
  induction d with
  | nil => rfl
  | cons p rest ih =>
      obtain ⟨pk, pv⟩ := p
      simp only [pyKeys, List.map_cons, List.mem_cons] at h
      push_neg at h
      simp [pyGet, Ne.symm h.1]
      exact ih h.2

theorem pySet_fresh {α : Type} (d : List (String × α)) (k : String) (v : α)
    (h : k ∉ pyKeys d) : pySet d k v = d ++ [(k, v)] := by
  induction d with
  | nil => rfl
  | cons p rest ih =>
      obtain ⟨pk, pv⟩ := p
      simp only [pyKeys, List.map_cons, List.mem_cons] at h
      push_neg at h
      simp [pySet, Ne.symm h.1]
      exact ih h.2

theorem pyKeys_pySet_mem {α : Type} (d : List (String × α)) (k : String)
    (v : α) (x : String) :
    x ∈ pyKeys (pySet d k v) ↔ x ∈ pyKeys d ∨ x = k := by
  induction d with
  | nil => simp [pySet, pyKeys]
  | cons p rest ih =>
      obtain ⟨pk, pv⟩ := p
      by_cases hp : pk = k
      · subst hp
        simp [pySet, pyKeys]
        tauto
      · simp [pySet, hp, pyKeys] at ih ⊢
        rw [ih]
        tauto

/-! ## Appending one record to the desired state (for C3) -/

theorem build_cc_snoc_ok (r : RawConfig) (u : String)
    (hr : r.video_url = some u) :
    ∀ (l : List RawConfig) (acc m : List (String × RawConfig)),
      build_current_configs acc l = .ok m →
      build_current_configs acc (l ++ [r]) = .ok (pySet m u r) := by
  intro l
  induction l with
  | nil =>
      intro acc m h
      simp only [build_current_configs] at h
      injection h with h
      subst h
      simp [build_current_configs, hr]
  | cons c rest ih =>
      intro acc m h
      rcases hv : c.video_url with _ | url
      · simp [build_current_configs, hv] at h
      · simp only [build_current_configs, hv] at h ⊢
        exact ih (pySet acc url c) m h

theorem build_cc_snoc_err (r : RawConfig) :
    ∀ (l : List RawConfig) (acc : List (String × RawConfig)) (e : String),
      build_current_configs acc l = .error e →
      build_current_configs acc (l ++ [r]) = .error e := by
  intro l
  induction l with
  | nil => intro acc e h; cases h
  | cons c rest ih =>
      intro acc e h
      rcases hv : c.video_url with _ | url
      · simp only [build_current_configs, hv] at h ⊢
        exact h
      · simp only [build_current_configs, hv] at h ⊢
        exact ih (pySet acc url c) e h

theorem build_ck_snoc_ok (r : RawConfig) (site : Option String)
    (hr : r.site = some site) :
    ∀ (l : List RawConfig) (acc ks : List String),
      build_current_keys acc l = .ok ks →
      build_current_keys acc (l ++ [r]) =
        .ok (ks ++ [keyOf site r.stream_name]) := by
  intro l
  induction l with
  | nil =>
      intro acc ks h
      simp only [build_current_keys] at h
      injection h with h
      subst h
      simp [build_current_keys, hr]
  | cons c rest ih =>
      intro acc ks h
      rcases hs : c.site with _ | s
      · simp [build_current_keys, hs] at h
      · simp only [build_current_keys, hs] at h ⊢
        exact ih _ ks h

theorem build_ck_snoc_err (r : RawConfig) :
    ∀ (l : List RawConfig) (acc : List String) (e : String),
      build_current_keys acc l = .error e →
      build_current_keys acc (l ++ [r]) = .error e := by
  intro l
  induction l with
  | nil => intro acc e h; cases h
  | cons c rest ih =>
      intro acc e h
      rcases hs : c.site with _ | s
      · simp only [build_current_keys, hs] at h ⊢
        exact h
      · simp only [build_current_keys, hs] at h ⊢
        exact ih _ e h

theorem build_cc_keys_sub :
    ∀ (cfgs : List RawConfig) (acc m : List (String × RawConfig)),
      build_current_configs acc cfgs = .ok m →
      ∀ x, x ∈ pyKeys m →
        x ∈ pyKeys acc ∨ ∃ c ∈ cfgs, c.video_url = some x := by
  intro cfgs
  induction cfgs with
  | nil =>
      intro acc m h x hx
      simp only [build_current_configs] at h
      injection h with h
      subst h
      exact Or.inl hx
  | cons c rest ih =>
      intro acc m h x hx
      rcases hv : c.video_url with _ | url
      · simp [build_current_configs, hv] at h
      · simp only [build_current_configs, hv] at h
        rcases ih (pySet acc url c) m h x hx with h2 | ⟨c', hc', hcu⟩
        · rcases (pyKeys_pySet_mem acc url c x).mp h2 with h3 | h3
          · exact Or.inl h3
          · exact Or.inr ⟨c, by simp, by rw [hv, h3]⟩
        · exact Or.inr ⟨c', by simp [hc'], hcu⟩

theorem srw_congr (ck1 ck2 : List String) (url key : String)
    (s t : PassState) (h : EqExceptDeleted s t) :
    EqExceptDeleted (stopRemovedWorker ck2 url key s).1
      (stopRemovedWorker ck1 url key t).1 ∧
    (stopRemovedWorker ck2 url key s).2 =
      (stopRemovedWorker ck1 url key t).2 := by
  obtain ⟨h1, h2, h3, h4⟩ := h
  simp only [stopRemovedWorker, h1, h2, h3, h4]
  cases hd : pyDelE t.hashes url with
  | error e => simp [EqExceptDeleted]
  | ok hsh => simp [EqExceptDeleted]

theorem stopStep_congr (isExp : Option String → Bool)
    (cc1 cc2 : List (String × RawConfig)) (ck1 ck2 : List String)
    (u : String) (r : RawConfig)
    (hgne : ∀ q, q ≠ u → pyGet cc2 q = pyGet cc1 q)
    (hg1 : pyGet cc1 u = none) (hg2 : pyGet cc2 u = some r)
    (hrt : r.isTruthy = true) (hrexp : isExp r.expire_date = true)
    (url : String) (s t : PassState) (h : EqExceptDeleted s t) :
    EqExceptDeleted (stopStep isExp cc2 ck2 url s).1
      (stopStep isExp cc1 ck1 url t).1 ∧
    (stopStep isExp cc2 ck2 url s).2 = (stopStep isExp cc1 ck1 url t).2 := by
  obtain ⟨h1, h2, h3, h4⟩ := h
  simp only [stopStep, h1, h2, h3, h4]
  cases hrun : pyGet t.running url with
  | none => exact ⟨⟨h1, h2, h3, h4⟩, rfl⟩
  | some cdata =>
      dsimp only
      cases hsite : cdata.site with
      | none => exact ⟨⟨h1, h2, h3, h4⟩, rfl⟩
      | some site =>
          dsimp only
          by_cases hu : url = u
          · subst hu
            simp only [hg1, hg2]
            rw [if_pos (by simp [hrt, hrexp])]
            exact srw_congr ck1 ck2 url _ s t ⟨h1, h2, h3, h4⟩
          · rw [hgne url hu]
            cases hcfg : pyGet cc1 url with
            | none => exact srw_congr ck1 ck2 url _ s t ⟨h1, h2, h3, h4⟩
            | some config =>
                dsimp only
                by_cases hbr :
                    (!config.isTruthy || isExp config.expire_date) = true
                · rw [if_pos hbr, if_pos hbr]
                  exact srw_congr ck1 ck2 url _ s t ⟨h1, h2, h3, h4⟩
                · rw [if_neg hbr, if_neg hbr]
                  cases hh : compute_config_hash config with
                  | error e => exact ⟨⟨h1, h2, h3, h4⟩, rfl⟩
                  | ok newHash =>
                      dsimp only
                      by_cases hhash : pyGet t.hashes url = some newHash
                      · rw [if_pos hhash, if_pos hhash]
                        exact ⟨⟨h1, h2, h3, h4⟩, rfl⟩
                      · rw [if_neg hhash, if_neg hhash]
                        exact ⟨⟨rfl, rfl, rfl, rfl⟩, rfl⟩

theorem stopLoop_congr (isExp : Option String → Bool)
    (cc1 cc2 : List (String × RawConfig)) (ck1 ck2 : List String)
    (u : String) (r : RawConfig)
    (hgne : ∀ q, q ≠ u → pyGet cc2 q = pyGet cc1 q)
    (hg1 : pyGet cc1 u = none) (hg2 : pyGet cc2 u = some r)
    (hrt : r.isTruthy = true) (hrexp : isExp r.expire_date = true) :
    ∀ (urls : List String) (s t : PassState), EqExceptDeleted s t →
      EqExceptDeleted (stopLoop isExp cc2 ck2 urls s).1
        (stopLoop isExp cc1 ck1 urls t).1 ∧
      (stopLoop isExp cc2 ck2 urls s).2 =
        (stopLoop isExp cc1 ck1 urls t).2 := by
  intro urls
  induction urls with
  | nil => intro s t h; exact ⟨h, rfl⟩
  | cons w rest ih =>
      intro s t h
      obtain ⟨hstep_R, hstep_e⟩ :=
        stopStep_congr isExp cc1 cc2 ck1 ck2 u r hgne hg1 hg2 hrt hrexp w s t h
      rcases hs2 : stopStep isExp cc2 ck2 w s with ⟨s1, e2⟩
      rcases ht2 : stopStep isExp cc1 ck1 w t with ⟨t1, e1⟩
      rw [hs2, ht2] at hstep_R hstep_e
      have hR : EqExceptDeleted s1 t1 := hstep_R
      have he : e2 = e1 := hstep_e
      subst he
      cases e2 with
      | some e' =>
          simp only [stopLoop, hs2, ht2]
          exact ⟨hR, trivial⟩
      | none =>
          simp only [stopLoop, hs2, ht2]
          exact ih s1 t1 hR

theorem startStep_congr (isExp : Option String → Bool) (url : String)
    (config : RawConfig) (s t : PassState) (h : EqExceptDeleted s t) :
    EqExceptDeleted (startStep isExp url config s).1
      (startStep isExp url config t).1 ∧
    (startStep isExp url config s).2 = (startStep isExp url config t).2 := by
  obtain ⟨h1, h2, h3, h4⟩ := h
  simp only [startStep, h1, h2, h3, h4]
  by_cases hexp : isExp config.expire_date = true
  · rw [if_pos hexp, if_pos hexp]
    exact ⟨⟨h1, h2, h3, h4⟩, rfl⟩
  · rw [if_neg hexp, if_neg hexp]
    by_cases hm : pyMem t.running url = true
    · rw [if_pos hm, if_pos hm]
      exact ⟨⟨h1, h2, h3, h4⟩, rfl⟩
    · rw [if_neg hm, if_neg hm]
      cases hh : compute_config_hash config with
      | error e => exact ⟨⟨rfl, rfl, rfl, rfl⟩, rfl⟩
      | ok hv => exact ⟨⟨rfl, rfl, rfl, rfl⟩, rfl⟩

theorem startLoop_congr (isExp : Option String → Bool) :
    ∀ (l : List (String × RawConfig)) (s t : PassState),
      EqExceptDeleted s t →
      EqExceptDeleted (startLoop isExp l s).1 (startLoop isExp l t).1 ∧
      (startLoop isExp l s).2 = (startLoop isExp l t).2 := by
  intro l
  induction l with
  | nil => intro s t h; exact ⟨h, rfl⟩
  | cons p rest ih =>
      intro s t h
      obtain ⟨url, config⟩ := p
      obtain ⟨hstep_R, hstep_e⟩ := startStep_congr isExp url config s t h
      rcases hs2 : startStep isExp url config s with ⟨s1, e2⟩
      rcases ht2 : startStep isExp url config t with ⟨t1, e1⟩
      rw [hs2, ht2] at hstep_R hstep_e
      have hR : EqExceptDeleted s1 t1 := hstep_R
      have he : e2 = e1 := hstep_e
      subst he
      cases e2 with
      | some e' =>
          simp only [startLoop, hs2, ht2]
          exact ⟨hR, trivial⟩
      | none =>
          simp only [startLoop, hs2, ht2]
          exact ih s1 t1 hR

theorem startLoop_append_ok (isExp : Option String → Bool) :
    ∀ (l1 l2 : List (String × RawConfig)) (st st1 : PassState),
      startLoop isExp l1 st = (st1, none) →
      startLoop isExp (l1 ++ l2) st = startLoop isExp l2 st1 := by
  intro l1
  induction l1 with
  | nil =>
      intro l2 st st1 h
      simp only [startLoop] at h
      injection h with ha hb
      subst ha
      simp
  | cons p rest ih =>
      intro l2 st st1 h
      obtain ⟨url, config⟩ := p
      rcases hstep : startStep isExp url config st with ⟨s1, e⟩
      cases e with
      | some e' => simp only [startLoop, hstep] at h; simp at h
      | none =>
          simp only [startLoop, hstep] at h
          simp only [List.cons_append, startLoop, hstep]
          exact ih l2 s1 st1 h

theorem startLoop_append_err (isExp : Option String → Bool) :
    ∀ (l1 l2 : List (String × RawConfig)) (st st1 : PassState) (e : String),
      startLoop isExp l1 st = (st1, some e) →
      startLoop isExp (l1 ++ l2) st = (st1, some e) := by
  intro l1
  induction l1 with
  | nil =>
      intro l2 st st1 e h
      simp only [startLoop] at h
      simp at h
  | cons p rest ih =>
      intro l2 st st1 e h
      obtain ⟨url, config⟩ := p
      rcases hstep : startStep isExp url config st with ⟨s1, e2⟩
      cases e2 with
      | some e' =>
          simp only [startLoop, hstep] at h
          simp only [List.cons_append, startLoop, hstep]
          exact h
      | none =>
          simp only [startLoop, hstep] at h
          simp only [List.cons_append, startLoop, hstep]
          exact ih l2 s1 st1 e h

theorem startStep_skip_expired (isExp : Option String → Bool) (url : String)
    (config : RawConfig) (st : PassState)
    (h : isExp config.expire_date = true) :
    startStep isExp url config st = (st, none) := by
  simp [startStep, h]

theorem startLoop_single_expired (isExp : Option String → Bool) (u : String)
    (r : RawConfig) (st : PassState) (h : isExp r.expire_date = true) :
    startLoop isExp [(u, r)] st = (st, none) := by
  simp only [startLoop, startStep_skip_expired isExp u r st h]

/-- C3: appending one well-formed expired record with a fresh URL to the
desired state leaves the resulting actual state unchanged: the same
running-worker map and fingerprint map result, the same workers are
stopped and started, and the pass succeeds or fails identically.  (Only
the set of issued Redis deletions may differ: the expired record's
derived key can suppress a deletion.) -/
theorem C3_expired_record_no_effect
    (isExp : Option String → Bool) (st : ActualState)
    (D1 : List RawConfig) (r : RawConfig) (u : String) (rsite : Option String)
    (hu : r.video_url = some u)
    (hsite : r.site = some rsite)
    (hfresh : ∀ c ∈ D1, c.video_url ≠ some u)
    (hexp : isExp r.expire_date = true) :
    (reload_configurations isExp st (D1 ++ [r])).1.running =
      (reload_configurations isExp st D1).1.running ∧
    (reload_configurations isExp st (D1 ++ [r])).1.hashes =
      (reload_configurations isExp st D1).1.hashes ∧
    (reload_configurations isExp st (D1 ++ [r])).1.stopped =
      (reload_configurations isExp st D1).1.stopped ∧
    (reload_configurations isExp st (D1 ++ [r])).1.started =
      (reload_configurations isExp st D1).1.started ∧
    (reload_configurations isExp st (D1 ++ [r])).2 =
      (reload_configurations isExp st D1).2 := by
  have hrt : r.isTruthy = true := by
    simp [RawConfig.isTruthy, hu]
  rcases hcc1 : build_current_configs [] D1 with e | cc1
  · have hcc2 := build_cc_snoc_err r D1 [] e hcc1
    simp [reload_configurations, hcc1, hcc2]
  · have hcc2 : build_current_configs [] (D1 ++ [r]) = .ok (pySet cc1 u r) :=
      build_cc_snoc_ok r u hu D1 [] cc1 hcc1
    rcases hck1 : build_current_keys [] D1 with e | ck1
    · have hck2 := build_ck_snoc_err r D1 [] e hck1
      simp [reload_configurations, hcc1, hcc2, hck1, hck2]
    · have hck2 : build_current_keys [] (D1 ++ [r]) =
          .ok (ck1 ++ [keyOf rsite r.stream_name]) :=
        build_ck_snoc_ok r rsite hsite D1 [] ck1 hck1
      have hnotmem : u ∉ pyKeys cc1 := by
        intro hmem
        rcases build_cc_keys_sub D1 [] cc1 hcc1 u hmem with h | ⟨c, hc, hcu⟩
        · simp [pyKeys] at h
        · exact hfresh c hc hcu
      have hg1 : pyGet cc1 u = none := pyGet_none_of_not_mem cc1 u hnotmem
      have hg2 : pyGet (pySet cc1 u r) u = some r := pyGet_pySet_self cc1 u r
      have hgne : ∀ q, q ≠ u → pyGet (pySet cc1 u r) q = pyGet cc1 q :=
        fun q hq => pyGet_pySet_ne cc1 q u r hq
      obtain ⟨hslR, hsle⟩ := stopLoop_congr isExp cc1 (pySet cc1 u r) ck1
        (ck1 ++ [keyOf rsite r.stream_name]) u r hgne hg1 hg2 hrt hexp
        (pyKeys st.running) ⟨st.running, st.hashes, [], [], []⟩
        ⟨st.running, st.hashes, [], [], []⟩ ⟨rfl, rfl, rfl, rfl⟩
      rcases hsl2 : stopLoop isExp (pySet cc1 u r)
          (ck1 ++ [keyOf rsite r.stream_name]) (pyKeys st.running)
          ⟨st.running, st.hashes, [], [], []⟩ with ⟨s1, e2⟩
      rcases hsl1 : stopLoop isExp cc1 ck1 (pyKeys st.running)
          ⟨st.running, st.hashes, [], [], []⟩ with ⟨t1, e1⟩
      rw [hsl1, hsl2] at hslR hsle
      have hR1 : EqExceptDeleted s1 t1 := hslR
      have hee : e2 = e1 := hsle
      subst hee
      cases e2 with
      | some e' =>
          simp [reload_configurations, hcc1, hcc2, hck1, hck2, hsl1, hsl2,
            hR1.1, hR1.2.1, hR1.2.2.1, hR1.2.2.2]
      | none =>
          have heq2 : reload_configurations isExp st (D1 ++ [r]) =
              startLoop isExp (pySet cc1 u r) s1 := by
            simp [reload_configurations, hcc2, hck2, hsl2]
          have heq1 : reload_configurations isExp st D1 =
              startLoop isExp cc1 t1 := by
            simp [reload_configurations, hcc1, hck1, hsl1]
          rw [heq1, heq2]
          rw [pySet_fresh cc1 u r hnotmem]
          obtain ⟨hstR, hste⟩ := startLoop_congr isExp cc1 s1 t1 hR1
          rcases hstl2 : startLoop isExp cc1 s1 with ⟨s2, e3⟩
          rcases hstl1 : startLoop isExp cc1 t1 with ⟨t2, e4⟩
          rw [hstl1, hstl2] at hstR hste
          have hR2 : EqExceptDeleted s2 t2 := hstR
          have hee2 : e3 = e4 := hste
          subst hee2
          cases e3 with
          | some e' =>
              rw [startLoop_append_err isExp cc1 [(u, r)] s1 s2 e' hstl2]
              exact ⟨hR2.1, hR2.2.1, hR2.2.2.1, hR2.2.2.2, rfl⟩
          | none =>
              rw [startLoop_append_ok isExp cc1 [(u, r)] s1 s2 hstl2,
                startLoop_single_expired isExp u r s2 hexp]
              exact ⟨hR2.1, hR2.2.1, hR2.2.2.1, hR2.2.2.2, rfl⟩

/-- Witness for C3 at a concrete input. -/
theorem C3_expired_record_witness :
    (reload_configurations isExpW stW ([cfgReuse] ++ [cfgExpired])).1.running =
      (reload_configurations isExpW stW [cfgReuse]).1.running ∧
    (reload_configurations isExpW stW ([cfgReuse] ++ [cfgExpired])).1.hashes =
      (reload_configurations isExpW stW [cfgReuse]).1.hashes ∧
    (reload_configurations isExpW stW ([cfgReuse] ++ [cfgExpired])).1.stopped =
      (reload_configurations isExpW stW [cfgReuse]).1.stopped ∧
    (reload_configurations isExpW stW ([cfgReuse] ++ [cfgExpired])).1.started =
      (reload_configurations isExpW stW [cfgReuse]).1.started ∧
    (reload_configurations isExpW stW ([cfgReuse] ++ [cfgExpired])).2 =
      (reload_configurations isExpW stW [cfgReuse]).2 :=
  C3_expired_record_no_effect isExpW stW [cfgReuse] cfgExpired
    "rtsp://camera-x" (some "SiteX") rfl rfl (by decide) (by decide)

theorem pyInt_eq_floor (q : ℚ) (h : 0 ≤ q) : pyInt q = ⌊q⌋ := by
  rw [pyInt, Rat.floor_def]
  exact Int.tdiv_eq_ediv (by exact_mod_cast Rat.num_nonneg.mpr h)
    (by positivity)

theorem sub_pyInt_lt_one (q : ℚ) (h : 0 ≤ q) : q - (pyInt q : ℚ) < 1 := by
  rw [pyInt_eq_floor q h]
  have := Int.lt_floor_add_one q
  linarith

theorem pyInt_le (q : ℚ) (h : 0 ≤ q) : (pyInt q : ℚ) ≤ q := by
  rw [pyInt_eq_floor q h]
  exact Int.floor_le q

theorem notifyLoop_suppress_head (translateOne : String → String → String)
    (sendStatus : String → String → ℕ) (sn ts : String) (hour : ℤ)
    (warnings : List String) (t : ℚ) (tk lg : String)
    (rest : List (String × String)) (last : ℤ)
    (h : t - (last : ℚ) < 300) :
    notifyLoop translateOne sendStatus sn ts hour warnings t
        ((tk, lg) :: rest) last =
      (.suppressed tk ::
        (notifyLoop translateOne sendStatus sn ts hour warnings t
          rest last).1,
        (notifyLoop translateOne sendStatus sn ts hour warnings t
          rest last).2) := by
  simp only [notifyLoop, if_pos h]

theorem notifyLoop_skip_head (translateOne : String → String → String)
    (sendStatus : String → String → ℕ) (sn ts : String) (hour : ℤ)
    (warnings : List String) (t : ℚ) (tk lg : String)
    (rest : List (String × String)) (last : ℤ)
    (h : ¬(t - (last : ℚ) < 300))
    (hmsg : composeMessage translateOne sn ts hour warnings lg = none) :
    notifyLoop translateOne sendStatus sn ts hour warnings t
        ((tk, lg) :: rest) last =
      (.skippedNoMessage tk ::
        (notifyLoop translateOne sendStatus sn ts hour warnings t
          rest last).1,
        (notifyLoop translateOne sendStatus sn ts hour warnings t
          rest last).2) := by
  simp only [notifyLoop, if_neg h, hmsg]

theorem notifyLoop_sendOk_head (translateOne : String → String → String)
    (sendStatus : String → String → ℕ) (sn ts : String) (hour : ℤ)
    (warnings : List String) (t : ℚ) (tk lg : String)
    (rest : List (String × String)) (last : ℤ) (msg : String)
    (h : ¬(t - (last : ℚ) < 300))
    (hmsg : composeMessage translateOne sn ts hour warnings lg = some msg)
    (hst : sendStatus tk msg = 200) :
    notifyLoop translateOne sendStatus sn ts hour warnings t
        ((tk, lg) :: rest) last =
      (.sendOk tk msg ::
        (notifyLoop translateOne sendStatus sn ts hour warnings t
          rest (pyInt t)).1,
        (notifyLoop translateOne sendStatus sn ts hour warnings t
          rest (pyInt t)).2) := by
  simp only [notifyLoop, if_neg h, hmsg, if_pos hst]

theorem notifyLoop_sendFail_head (translateOne : String → String → String)
    (sendStatus : String → String → ℕ) (sn ts : String) (hour : ℤ)
    (warnings : List String) (t : ℚ) (tk lg : String)
    (rest : List (String × String)) (last : ℤ) (msg : String)
    (h : ¬(t - (last : ℚ) < 300))
    (hmsg : composeMessage translateOne sn ts hour warnings lg = some msg)
    (hst : ¬(sendStatus tk msg = 200)) :
    notifyLoop translateOne sendStatus sn ts hour warnings t
        ((tk, lg) :: rest) last =
      (.sendFail tk msg ::
        (notifyLoop translateOne sendStatus sn ts hour warnings t
          rest last).1,
        (notifyLoop translateOne sendStatus sn ts hour warnings t
          rest last).2) := by
  simp only [notifyLoop, if_neg h, hmsg, if_neg hst]

theorem notifyLoop_all_suppressed (translateOne : String → String → String)
    (sendStatus : String → String → ℕ) (sn ts : String) (hour : ℤ)
    (warnings : List String) (t : ℚ) (last : ℤ)
    (h : t - (last : ℚ) < 300) :
    ∀ chs : List (String × String),
      notifyLoop translateOne sendStatus sn ts hour warnings t chs last =
        (chs.map (fun p => .suppressed p.1), last) := by
  intro chs
  induction chs with
  | nil => rfl
  | cons p rest ih =>
      obtain ⟨tk, lg⟩ := p
      simp only [notifyLoop, if_pos h, ih, List.map_cons]

/-- C10: when a stream worker starts, `last_notification_time` is
initialised to `int(start_time) - 300`, exactly one cooldown window in
the past, so for a first frame captured at any `t ≥ start ≥ 0` the
cooldown guard is false and the first channel is never suppressed by the
cooldown. -/
theorem C10_first_frame_never_suppressed
    (translateOne : String → String → String)
    (sendStatus : String → String → ℕ) (sn ts : String) (hour : ℤ)
    (warnings : List String) (startTime t : ℚ)
    (hs : 0 ≤ startTime) (hst : startTime ≤ t)
    (tk lg : String) (rest : List (String × String)) :
    ¬(t - ((init_last_notification_time startTime : ℤ) : ℚ) < 300) ∧
    (notifyLoop translateOne sendStatus sn ts hour warnings t
        ((tk, lg) :: rest)
        (init_last_notification_time startTime)).1.head? ≠
      some (.suppressed tk) := by
  have hg : ¬(t - ((init_last_notification_time startTime : ℤ) : ℚ) < 300) := by
    rw [init_last_notification_time]
    push_cast
    have h1 : (pyInt startTime : ℚ) ≤ startTime := pyInt_le startTime hs
    intro hc
    linarith
  refine ⟨hg, ?_⟩
  cases hmsg : composeMessage translateOne sn ts hour warnings lg with
  | none =>
      rw [notifyLoop_skip_head translateOne sendStatus sn ts hour warnings t
        tk lg rest _ hg hmsg]
      simp
  | some msg =>
      by_cases hsd : sendStatus tk msg = 200
      · rw [notifyLoop_sendOk_head translateOne sendStatus sn ts hour warnings
          t tk lg rest _ msg hg hmsg hsd]
        simp
      · rw [notifyLoop_sendFail_head translateOne sendStatus sn ts hour
          warnings t tk lg rest _ msg hg hmsg hsd]
        simp

/-- C5: the notification cooldown policy of one decision pass.
(1) A channel checked while `timestamp - last < 300` is suppressed
without sending.  (2) A successful send immediately sets the stream's
last-sent stamp to `int(timestamp)`, and every later channel of the same
pass is suppressed by the updated cooldown.  (3) A failed send leaves the
stamp unchanged; the pass continues with the remaining channels and does
not retry the failed one.  (4) With the stamp set by a successful send at
`t`, a whole pass 100 seconds later is entirely suppressed, while 301
seconds later the cooldown has lapsed and a composed message is sent
again. -/
theorem C5_notification_cooldown_policy
    (translateOne : String → String → String)
    (sendStatus : String → String → ℕ) (sn ts : String) (hour : ℤ)
    (warnings : List String) (t : ℚ) (ht : 0 ≤ t) (last : ℤ)
    (tk lg : String) (rest : List (String × String)) (msg : String) :
    (t - (last : ℚ) < 300 →
      notifyLoop translateOne sendStatus sn ts hour warnings t
          ((tk, lg) :: rest) last =
        (.suppressed tk ::
          (notifyLoop translateOne sendStatus sn ts hour warnings t
            rest last).1,
          (notifyLoop translateOne sendStatus sn ts hour warnings t
            rest last).2)) ∧
    (¬(t - (last : ℚ) < 300) →
      composeMessage translateOne sn ts hour warnings lg = some msg →
      sendStatus tk msg = 200 →
      notifyLoop translateOne sendStatus sn ts hour warnings t
          ((tk, lg) :: rest) last =
        (.sendOk tk msg :: rest.map (fun p => .suppressed p.1),
          pyInt t)) ∧
    (¬(t - (last : ℚ) < 300) →
      composeMessage translateOne sn ts hour warnings lg = some msg →
      sendStatus tk msg ≠ 200 →
      notifyLoop translateOne sendStatus sn ts hour warnings t
          ((tk, lg) :: rest) last =
        (.sendFail tk msg ::
          (notifyLoop translateOne sendStatus sn ts hour warnings t
            rest last).1,
          (notifyLoop translateOne sendStatus sn ts hour warnings t
            rest last).2)) ∧
    (notifyLoop translateOne sendStatus sn ts hour warnings (t + 100)
        ((tk, lg) :: rest) (pyInt t) =
      (((tk, lg) :: rest).map (fun p => .suppressed p.1), pyInt t)) ∧
    (¬((t + 301) - ((pyInt t : ℤ) : ℚ) < 300)) ∧
    (composeMessage translateOne sn ts hour warnings lg = some msg →
      sendStatus tk msg = 200 →
      notifyLoop translateOne sendStatus sn ts hour warnings (t + 301)
          ((tk, lg) :: rest) (pyInt t) =
        (.sendOk tk msg :: rest.map (fun p => .suppressed p.1),
          pyInt (t + 301))) := by
  have hfr : t - (pyInt t : ℚ) < 1 := sub_pyInt_lt_one t ht
  have hle : (pyInt t : ℚ) ≤ t := pyInt_le t ht
  have hguard301 : ¬((t + 301) - ((pyInt t : ℤ) : ℚ) < 300) := by
    intro hc
    linarith
  refine ⟨?_, ?_, ?_, ?_, hguard301, ?_⟩
  · intro h
    exact notifyLoop_suppress_head translateOne sendStatus sn ts hour
      warnings t tk lg rest last h
  · intro hg hmsg hst
    rw [notifyLoop_sendOk_head translateOne sendStatus sn ts hour warnings t
      tk lg rest last msg hg hmsg hst]
    rw [notifyLoop_all_suppressed translateOne sendStatus sn ts hour warnings
      t (pyInt t) (by linarith) rest]
  · intro hg hmsg hst
    exact notifyLoop_sendFail_head translateOne sendStatus sn ts hour
      warnings t tk lg rest last msg hg hmsg hst
  · exact notifyLoop_all_suppressed translateOne sendStatus sn ts hour
      warnings (t + 100) (pyInt t) (by linarith) ((tk, lg) :: rest)
  · intro hmsg hst
    rw [notifyLoop_sendOk_head translateOne sendStatus sn ts hour warnings
      (t + 301) tk lg rest (pyInt t) msg hguard301 hmsg hst]
    have hfr2 : (t + 301) - (pyInt (t + 301) : ℚ) < 1 :=
      sub_pyInt_lt_one (t + 301) (by linarith)
    rw [notifyLoop_all_suppressed translateOne sendStatus sn ts hour warnings
      (t + 301) (pyInt (t + 301)) (by linarith) rest]

/-- C6: message content of a non-suppressed channel is determined by
time-of-day.  (a) With a restricted-zone ("controlled area") warning and
the hour outside 07:00–18:00, the message body carries exactly that
warning translated to the channel's language (as the rendered singleton
list the source interpolates).  (b) With any warnings and the hour within
07:00–18:00, the message body is the concatenation of all translated
warnings.  (c) Otherwise no message is composed, and the channel is
skipped by the pass. -/
theorem C6_message_content_by_time_of_day
    (translateOne : String → String → String)
    (sendStatus : String → String → ℕ) (sn ts : String) (hour : ℤ)
    (warnings : List String) (lg : String) (t : ℚ) (last : ℤ)
    (tk : String) (rest : List (String × String)) (w : String) :
    (controlled_zone_warning_str warnings = some w →
      ¬(7 ≤ hour ∧ hour < 18) →
      composeMessage translateOne sn ts hour warnings lg =
        some (sn ++ "\n[" ++ ts ++ "]\n" ++
          String.mk ('[' :: pyReprStr (translateOne w lg) ++ [']']))) ∧
    (7 ≤ hour ∧ hour < 18 → warnings ≠ [] →
      composeMessage translateOne sn ts hour warnings lg =
        some (sn ++ "\n[" ++ ts ++ "]\n" ++
          String.intercalate "\n"
            (warnings.map (fun x => translateOne x lg)))) ∧
    ((controlled_zone_warning_str warnings = none ∨ (7 ≤ hour ∧ hour < 18)) →
      (warnings = [] ∨ ¬(7 ≤ hour ∧ hour < 18)) →
      composeMessage translateOne sn ts hour warnings lg = none) ∧
    (¬(t - (last : ℚ) < 300) →
      composeMessage translateOne sn ts hour warnings lg = none →
      notifyLoop translateOne sendStatus sn ts hour warnings t
          ((tk, lg) :: rest) last =
        (.skippedNoMessage tk ::
          (notifyLoop translateOne sendStatus sn ts hour warnings t
            rest last).1,
          (notifyLoop translateOne sendStatus sn ts hour warnings t
            rest last).2)) := by
  refine ⟨?_, ?_, ?_, ?_⟩
  · intro hw hh
    have hcz : controlled_zone_warning warnings = [w] := by
      simp [controlled_zone_warning, hw]
    rw [composeMessage]
    rw [if_pos ⟨by simp [hcz], hh⟩]
    simp [hcz, translate_warning, pyReprStrList]
  · intro hh hw
    rw [composeMessage]
    rw [if_neg (by intro hcon; exact hcon.2 hh)]
    rw [if_pos ⟨by simpa [translate_warning] using hw, hh⟩]
    rfl
  · intro h1 h2
    rw [composeMessage]
    rw [if_neg ?hc1]
    case hc1 =>
      rintro ⟨hcz, hout⟩
      rcases h1 with h1 | h1
      · exact hcz (by simp [controlled_zone_warning, h1])
      · exact hout h1
    rw [if_neg ?hc2]
    case hc2 =>
      rintro ⟨htr, hin⟩
      rcases h2 with h2 | h2
      · exact htr (by simp [translate_warning, h2])
      · exact h2 hin
  · intro hg hmsg
    exact notifyLoop_skip_head translateOne sendStatus sn ts hour warnings t
      tk lg rest last hg hmsg

/-- Witness for C5 at concrete inputs: a pass at `t = 100` with a fresh
stamp `0` is suppressed; a pass at `t = 500` sends on the first channel
and the second channel of the same pass is suppressed by the updated
stamp; 301 seconds after the send the cooldown has lapsed. -/
theorem C5_cooldown_witness :
    (notifyLoop trW sendW "cam" "T" 10 ["w"] 100
        [("tokA", "en"), ("tokB", "zh")] 0 =
      (.suppressed "tokA" ::
        (notifyLoop trW sendW "cam" "T" 10 ["w"] 100 [("tokB", "zh")] 0).1,
        (notifyLoop trW sendW "cam" "T" 10 ["w"] 100 [("tokB", "zh")] 0).2)) ∧
    (notifyLoop trW sendW "cam" "T" 10 ["w"] 500
        [("tokA", "en"), ("tokB", "zh")] 0 =
      (.sendOk "tokA" msgW ::
        [("tokB", "zh")].map (fun p => ChannelEvent.suppressed p.1),
        pyInt 500)) ∧
    ¬((500 + 301 : ℚ) - ((pyInt (500 : ℚ) : ℤ) : ℚ) < 300) := by
  refine ⟨?_, ?_, ?_⟩
  · exact (C5_notification_cooldown_policy trW sendW "cam" "T" 10 ["w"] 100
      (by norm_num) 0 "tokA" "en" [("tokB", "zh")] msgW).1 (by norm_num)
  · exact (C5_notification_cooldown_policy trW sendW "cam" "T" 10 ["w"] 500
      (by norm_num) 0 "tokA" "en" [("tokB", "zh")] msgW).2.1
      (by norm_num) rfl rfl
  · exact (C5_notification_cooldown_policy trW sendW "cam" "T" 10 ["w"] 500
      (by norm_num) 0 "tokA" "en" [("tokB", "zh")] msgW).2.2.2.2.1

/-- Witness for C6 at concrete inputs: the three content cases. -/
theorem C6_content_witness :
    composeMessage trW "cam" "T" 20 ["people in controlled area now"] "en" =
      some ("cam" ++ "\n[" ++ "T" ++ "]\n" ++
        String.mk ('[' ::
          pyReprStr (trW "people in controlled area now" "en") ++ [']'])) ∧
    composeMessage trW "cam" "T" 10 ["hardhat missing"] "en" =
      some ("cam" ++ "\n[" ++ "T" ++ "]\n" ++
        String.intercalate "\n"
          (["hardhat missing"].map (fun x => trW x "en"))) ∧
    composeMessage trW "cam" "T" 20 ["hardhat missing"] "en" = none := by
  refine ⟨?_, ?_, ?_⟩
  · exact (C6_message_content_by_time_of_day trW sendW "cam" "T" 20
      ["people in controlled area now"] "en" 0 0 "tokA" []
      "people in controlled area now").1 (by decide) (by decide)
  · exact (C6_message_content_by_time_of_day trW sendW "cam" "T" 10
      ["hardhat missing"] "en" 0 0 "tokA" [] "w").2.1 (by decide) (by simp)
  · exact (C6_message_content_by_time_of_day trW sendW "cam" "T" 20
      ["hardhat missing"] "en" 0 0 "tokA" [] "w").2.2.1
      (Or.inl (by decide)) (Or.inr (by decide))

/-- Witness for C10 at concrete inputs. -/
theorem C10_first_frame_witness :
    ¬((101 : ℚ) - ((init_last_notification_time (201 / 2) : ℤ) : ℚ) < 300) ∧
    (notifyLoop trW sendW "cam" "T" 10 ["w"] 101 [("tokA", "en")]
        (init_last_notification_time (201 / 2))).1.head? ≠
      some (.suppressed "tokA") :=
  C10_first_frame_never_suppressed trW sendW "cam" "T" 10 ["w"] (201 / 2) 101
    (by norm_num) (by norm_num) "tokA" "en" []

/-- C7: after each processed frame the capture interval is set to
`floor(latency) + 5` seconds (`int()` truncation equals `floor` for the
nonnegative latency). -/
theorem C7_backpressure_interval (sc : StreamCapture) (pt : ℚ)
    (h : 0 ≤ pt) :
    (update_capture_interval sc (new_capture_interval pt)).capture_interval =
      ⌊pt⌋ + 5 := by
  simp [update_capture_interval, new_capture_interval, pyInt_eq_floor pt h]

/-- Witness for C7: a latency of 2.7 seconds yields interval 7. -/
theorem C7_backpressure_witness :
    (update_capture_interval ⟨"rtsp://camera-a", 1⟩
      (new_capture_interval (27 / 10))).capture_interval = 7 := by
  rw [C7_backpressure_interval ⟨"rtsp://camera-a", 1⟩ (27 / 10) (by norm_num)]
  have hf : ⌊(27 / 10 : ℚ)⌋ = 2 := by
    rw [Int.floor_eq_iff]
    norm_num
  rw [hf]
  norm_num

theorem findSome_pyGet_nil (l : List String) :
    l.findSome? (fun q => pyGet ([] : List (String × String)) q) = none := by
  induction l with
  | nil => rfl
  | cons q rest ih => simp [List.findSome?, pyGet, ih]

/-- C8: the capacity ladder of fallback quality selection.  With at least
10 Mbps the first (highest) advertised ladder entry is selected; in
[5, 10) the highest advertised entry at or below 720p; below 5 the
highest at or below 480p; a selected URL always comes from an advertised
variant allowed under the cap; and with no advertised variants the
selection is `none`. -/
theorem C8_quality_selection_ladder (speed : ℚ)
    (streams : List (String × String)) :
    (10 ≤ speed → select_quality_based_on_speed speed streams =
      quality_ladder.findSome? (fun q => pyGet streams q)) ∧
    (5 ≤ speed → speed < 10 → select_quality_based_on_speed speed streams =
      ["720p", "480p", "360p", "240p"].findSome?
        (fun q => pyGet streams q)) ∧
    (speed < 5 → select_quality_based_on_speed speed streams =
      ["480p", "360p", "240p"].findSome? (fun q => pyGet streams q)) ∧
    (∀ url, select_quality_based_on_speed speed streams = some url →
      ∃ q, q ∈ allowed_qualities speed ∧ pyGet streams q = some url) ∧
    (streams = [] → select_quality_based_on_speed speed streams = none) := by
  refine ⟨?_, ?_, ?_, ?_, ?_⟩
  · intro h
    simp [select_quality_based_on_speed, allowed_qualities, h]
  · intro h1 h2
    simp [select_quality_based_on_speed, allowed_qualities, not_le.mpr h2, h1]
  · intro h
    simp [select_quality_based_on_speed, allowed_qualities, not_le.mpr h,
      not_le.mpr (show speed < 10 by linarith)]
  · intro url h
    obtain ⟨q, hq, hget⟩ := List.exists_of_findSome?_eq_some h
    exact ⟨q, hq, hget⟩
  · intro h
    subst h
    exact findSome_pyGet_nil _

/-- Witness for C8: the four behaviours the spec and the unit tests pin. -/
theorem C8_quality_selection_witness :
    select_quality_based_on_speed 20
        [("best", "http://best.stream"), ("1080p", "http://1080p.stream"),
         ("720p", "http://720p.stream"), ("480p", "http://480p.stream")] =
      some "http://best.stream" ∧
    select_quality_based_on_speed 7
        [("720p", "http://720p.stream"), ("480p", "http://480p.stream"),
         ("360p", "http://360p.stream")] = some "http://720p.stream" ∧
    select_quality_based_on_speed 3
        [("480p", "http://480p.stream"), ("360p", "http://360p.stream"),
         ("240p", "http://240p.stream")] = some "http://480p.stream" ∧
    select_quality_based_on_speed 20 [] = none := by
  refine ⟨?_, ?_, ?_, ?_⟩
  · rw [(C8_quality_selection_ladder 20 _).1 (by norm_num)]
    rfl
  · rw [(C8_quality_selection_ladder 7 _).2.1 (by norm_num) (by norm_num)]
    rfl
  · rw [(C8_quality_selection_ladder 3 _).2.2.1 (by norm_num)]
    rfl
  · exact (C8_quality_selection_ladder 20 []).2.2.2.2 rfl

/-- C9, counterexample to the claim as stated: the worker of `cfgA` does
delete a buffer key itself — its own derived key, in the `finally:`
cleanup of `process_streams` — so buffer-key deletions are not issued
exclusively by the Reconciler. -/
theorem C9_counterexample_worker_deletes :
    RedisAction.del "SiteA_prediction_visual" ∈
      worker_redis_actions cfgA 0 := by
  decide

/-- C9 (amended): a stream worker does delete a buffer key itself — on
termination its `finally:` cleanup deletes exactly its own derived key,
as the very last buffer-store operation it performs; it never deletes any
other key.  (The Reconciler additionally deletes keys during
reconciliation, see C2.) -/
theorem C9_worker_deletes_own_key (c : RawConfig) (frames : ℕ) :
    (worker_redis_actions c frames).getLast? =
      some (.del (worker_derived_key c)) ∧
    ∀ k, RedisAction.del k ∈ worker_redis_actions c frames →
      k = worker_derived_key c := by
  constructor
  · simp [worker_redis_actions]
  · intro k hk
    rcases List.mem_append.mp hk with h1 | h1
    · have h2 := List.eq_of_mem_replicate h1
      simp at h2
    · simp at h1
      exact h1

/-- Witness for the amended C9 at a concrete input. -/
theorem C9_worker_delete_witness :
    (worker_redis_actions cfgA 2).getLast? =
      some (.del (worker_derived_key cfgA)) ∧
    "SiteA_prediction_visual" = worker_derived_key cfgA :=
  ⟨(C9_worker_deletes_own_key cfgA 2).1,
    (C9_worker_deletes_own_key cfgA 2).2 "SiteA_prediction_visual"
      (by decide)⟩

end CHD
